import Mathlib

/-!
Verification of the tax-automation document pipeline.

The development shallowly embeds the two core source files:

* `src/app/api/analyze/route.ts` — the recursive normalizer (`processFile`),
  the filename helpers (`getMimeType`, `shouldSkipFile`) and the
  post-processing of the model reply in `POST` (blank check, chatter
  stripping, JSON parse, manifest overwrite).
* `src/utils/export-client.ts` — the workbook builder of
  `generateAuditPackage` (row construction, section scan, formula overlay,
  hyperlink overlay with its path sanitization).

Strings are modelled as `List Char` (`Str`) so that the JavaScript string
operations (`split`, `endsWith`, `indexOf`, `substring`, `replace`, `trim`)
become plain recursive functions amenable to induction.  File bytes are
opaque: a file records its byte length (`fileBuffer.length`) and its
base64 rendering (`fileBuffer.toString "base64"`); text parts record their
content before the uniform (injective) base64 encoding applied by the
route.  Outcomes of the external extraction libraries (MsgReader, mammoth,
XLSX) for a given file are part of the file model (`ExtractKind`),
including the possibility that the library call throws.
-/

namespace TaxPipeline

/-- Strings as character lists; mirrors JavaScript strings for the purposes
of this development. -/
abbrev Str := List Char

/-- The character `{` (written via its code point to keep it out of
string literals). -/
def lbrace : Char := Char.ofNat 123

/-- The character `}`. -/
def rbrace : Char := Char.ofNat 125

/-- Coerce a Lean string literal to `Str`. -/
def lit (s : String) : Str := s.data

/-- JavaScript `s.toLowerCase()` (ASCII case folding suffices for the
extension/pattern comparisons made by the route). -/
def lowerL (l : Str) : Str := l.map Char.toLower

/-- JavaScript `s.endsWith(sfx)`. -/
def endsL (l sfx : Str) : Bool := sfx.isSuffixOf l

/-- JavaScript `s.startsWith(pre)`. -/
def startsL (l pre : Str) : Bool := pre.isPrefixOf l

/-- JavaScript `s.split(".")`: groups between dots (never empty; a string
without dots yields one group). -/
def splitOnDot : Str → List Str
  | [] => [[]]
  | c :: rest =>
    if c = '.' then [] :: splitOnDot rest
    else
      match splitOnDot rest with
      | [] => [[c]]
      | g :: gs => (c :: g) :: gs

/-- `filename.split(".").pop()?.toLowerCase()` — the lower-cased last
dot-separated component, the extension the route dispatches on. -/
def getExt (filename : Str) : Str := lowerL ((splitOnDot filename).getLastD [])

/-- The `switch (ext)` table of `getMimeType`. -/
def getMimeTypeOfExt (ext : Str) : Str :=
  if ext = lit "pdf" then lit "application/pdf"
  else if ext = lit "png" then lit "image/png"
  else if ext = lit "jpg" then lit "image/jpeg"
  else if ext = lit "jpeg" then lit "image/jpeg"
  else if ext = lit "docx" then lit "application/vnd.openxmlformats-officedocument.wordprocessingml.document"
  else if ext = lit "msg" then lit "application/vnd.ms-outlook"
  else if ext = lit "xlsx" then lit "application/vnd.openxmlformats-officedocument.spreadsheetml.sheet"
  else if ext = lit "xls" then lit "application/vnd.openxmlformats-officedocument.spreadsheetml.sheet"
  else if ext = lit "csv" then lit "text/csv"
  else lit "application/octet-stream"

/-- `getMimeType` of `analyze/route.ts`: fixed extension→MIME table with an
`application/octet-stream` default. -/
def getMimeType (filename : Str) : Str := getMimeTypeOfExt (getExt filename)

/-- `shouldSkipFile` of `analyze/route.ts`: the ignore patterns
`^\.`, `^~$`, `\.tmp$` (i), `\.DS_Store$` (i), `Thumbs\.db$` (i). -/
def shouldSkipFile (filename : Str) : Bool :=
  startsL filename (lit ".") || startsL filename (lit "~$") ||
  endsL (lowerL filename) (lit ".tmp") ||
  endsL (lowerL filename) (lit ".ds_store") ||
  endsL (lowerL filename) (lit "thumbs.db")

/-- `MAX_FILE_SIZE = 10 * 1024 * 1024`. -/
def MAX_FILE_SIZE : Nat := 10 * 1024 * 1024

/-- One element of the `parts` array sent to the model:
`{ inlineData: { data, mimeType } }`.  `data` holds the part's content; for
text parts this is the text before the route's uniform base64 encoding, for
binary passthrough it is the file's base64 rendering. -/
structure Part where
  data : Str
  mimeType : Str
deriving Repr, DecidableEq

/-- What the extraction libraries yield for a given file's bytes.
`throws` covers a library call raising (corrupt container, unreadable
document or workbook).  For `msg`, the header fields are MsgReader's
`senderName`/`senderEmail`/`recipients (name, email)`/`subject`/`body`
(`Option` = absent/empty distinction is made by `orD` below matching the
JavaScript `||` chains); `headers` reflects truthiness of
`fileData.headers`.  Attachments whose `getAttachment` content is absent
are omitted from the attachment list, as the route ignores them. -/
inductive ExtractKind where
  /-- the library call throws for this file -/
  | throws
  /-- MsgReader `getFileData` result (attachments live on the `FileTree`
  node) -/
  | msg (headers : Bool) (senderName senderEmail : Option Str)
        (recipients : Option (List (Option Str × Option Str)))
        (subject : Option Str) (body : Option Str)
  /-- mammoth `extractRawText` result (`result.value`) -/
  | docx (text : Str)
  /-- XLSX workbook: sheet names with their `sheet_to_csv` renderings -/
  | sheets (sheets : List (Str × Str))
  /-- file is never handed to an extraction library (binary passthrough or
  unsupported placeholder) -/
  | unused
deriving Repr, DecidableEq

/-- A raw file as seen by the normalizer: reported name, byte length
(`fileBuffer.length`), base64 rendering of the bytes
(`fileBuffer.toString("base64")`), the extraction-library outcome for
those bytes, and — when the bytes are a mail container — the embedded
attachments (MsgReader `fileName` plus recursive content). -/
inductive FileTree where
  | mk (name : Str) (len : Nat) (b64 : Str) (ext : ExtractKind)
       (attachments : List FileTree)
deriving Repr

def FileTree.name : FileTree → Str | .mk n _ _ _ _ => n
def FileTree.len : FileTree → Nat | .mk _ l _ _ _ => l
def FileTree.b64 : FileTree → Str | .mk _ _ b _ _ => b
def FileTree.extract : FileTree → ExtractKind | .mk _ _ _ e _ => e
def FileTree.attachments : FileTree → List FileTree | .mk _ _ _ _ a => a

/-- JavaScript `a || b` for an optional string (`undefined` and `""` are
falsy). -/
def orD (o : Option Str) (d : Str) : Str :=
  match o with
  | some s => if s = [] then d else s
  | none => d

/-- `recipients?.map(r => r.name || r.email).join(", ")` where a recipient
with neither name nor email renders as the empty string (JavaScript `join`
renders `undefined` as `""`). -/
def recipientsLine (rs : List (Option Str × Option Str)) : Str :=
  match rs with
  | [] => []
  | [r] => orD r.1 (orD r.2 [])
  | r :: rest => orD r.1 (orD r.2 []) ++ lit ", " ++ recipientsLine rest

/-- The `emailText` block the msg branch builds for a container at path
`p`. -/
def emailTextOf (p : Str) (headers : Bool) (senderName senderEmail : Option Str)
    (recipients : Option (List (Option Str × Option Str)))
    (subject : Option Str) (body : Option Str) : Str :=
  lit "--- EMAIL: " ++ p ++ lit " ---\n" ++
  (if headers then
    lit "From: " ++ orD senderName (orD senderEmail (lit "Unknown")) ++ lit "\n" ++
    lit "To: " ++ (match recipients with
      | some rs => if recipientsLine rs = [] then lit "Unknown" else recipientsLine rs
      | none => lit "Unknown") ++ lit "\n" ++
    lit "Subject: " ++ orD subject (lit "No Subject") ++ lit "\n"
   else []) ++
  lit "\nBody:\n" ++ orD body (lit "(No body text)") ++ lit "\n"

/-- The spreadsheet text block: `"--- SPREADSHEET: p ---\n"` followed by
one `"\nSheet: name\ncsv\n"` block per sheet. -/
def sheetsTextOf (p : Str) (sheets : List (Str × Str)) : Str :=
  lit "--- SPREADSHEET: " ++ p ++ lit " ---\n" ++
  (sheets.map (fun s => lit "\nSheet: " ++ s.1 ++ lit "\n" ++ s.2 ++ lit "\n")).flatten

/-- `normalizedName = currentPath || filename` (the empty string is
falsy). -/
def normName (currentPath filename : Str) : Str :=
  if currentPath = [] then filename else currentPath

/-- The filename under which an attachment re-enters the pipeline:
`attachmentData.fileName || "attachment"`. -/
def resolvedName (a : FileTree) : Str :=
  if a.name = [] then lit "attachment" else a.name

mutual

/-- `processFile` of `analyze/route.ts`.  The mutable `manifest` array is
made explicit: the result is the pair of the returned `parts` and the list
of entries the call appends to the manifest, in order (`normalizedName` is
pushed once, before dispatch, in every non-skipped, non-oversize case).
`filename` is the second argument of the route's function (for
attachments, the resolved `attachmentData.fileName || "attachment"`).  A
branch whose extraction-library call throws returns no parts (the `catch`
swallows the error) but keeps its manifest entry. -/
def processFile : FileTree → Str → Str → List Part × List Str
  | .mk _ len b64 extr atts, filename, currentPath =>
    if shouldSkipFile filename then ([], [])
    else if MAX_FILE_SIZE < len then ([], [])
    else
      let dispatched : List Part × List Str :=
        if endsL filename (lit ".msg") then
          match extr with
          | .msg headers sn se rcpt subj body =>
            (⟨emailTextOf (normName currentPath filename) headers sn se rcpt subj body,
               lit "text/plain"⟩ ::
               (processAttachments atts (normName currentPath filename)).1,
             (processAttachments atts (normName currentPath filename)).2)
          | _ => ([], [])
        else if endsL filename (lit ".docx") then
          match extr with
          | .docx text =>
            ([⟨lit "--- DOCUMENT: " ++ normName currentPath filename ++ lit " ---\n" ++ text,
               lit "text/plain"⟩], [])
          | _ => ([], [])
        else if endsL filename (lit ".xlsx") || endsL filename (lit ".xls")
                || endsL filename (lit ".csv") then
          match extr with
          | .sheets ss =>
            ([⟨sheetsTextOf (normName currentPath filename) ss, lit "text/plain"⟩], [])
          | _ => ([], [])
        else if startsL (getMimeType filename) (lit "image/")
                || getMimeType filename = lit "application/pdf" then
          ([⟨b64, getMimeType filename⟩], [])
        else
          ([⟨lit "--- BINARY FILE: " ++ normName currentPath filename ++ lit " ---",
             lit "text/plain"⟩], [])
      (dispatched.1, normName currentPath filename :: dispatched.2)
termination_by structural f _ _ => f

/-- The attachment loop of the msg branch: each attachment re-enters
`processFile` under the extended path `parent ++ " > " ++ name`. -/
def processAttachments : List FileTree → Str → List Part × List Str
  | [], _ => ([], [])
  | a :: rest, parent =>
    ((processFile a (resolvedName a) (parent ++ lit " > " ++ resolvedName a)).1 ++
       (processAttachments rest parent).1,
     (processFile a (resolvedName a) (parent ++ lit " > " ++ resolvedName a)).2 ++
       (processAttachments rest parent).2)
termination_by structural atts _ => atts

end

/-! ### Depth-first traversal facts about the normalizer -/

mutual

/-- Number of attachments of a file, counted recursively (nested
containers included), as the specification counts them. -/
def countAttachments : FileTree → Nat
  | .mk _ _ _ _ atts => countAttachmentsList atts
termination_by structural f => f

def countAttachmentsList : List FileTree → Nat
  | [] => 0
  | a :: rest => 1 + countAttachments a + countAttachmentsList rest
termination_by structural l => l

end

mutual

/-- The manifest the specification promises: a depth-first pre-order
listing of breadcrumb paths, each attachment under its ancestor chain
joined with `" > "`. -/
def dfsPaths : FileTree → Str → List Str
  | .mk _ _ _ _ atts, path => path :: dfsPathsList atts path
termination_by structural f => f

def dfsPathsList : List FileTree → Str → List Str
  | [], _ => []
  | a :: rest, parent =>
    dfsPaths a (parent ++ lit " > " ++ resolvedName a) ++ dfsPathsList rest parent
termination_by structural l => l

end

mutual

/-- The premise of the depth-first-manifest claim: no file in the tree is
skipped or oversize, and every file that actually has attachments is a
mail container (named `*.msg`, successfully unpacked by MsgReader) — i.e.
its recursively counted attachments are well defined. -/
def goodTree : FileTree → Str → Bool
  | .mk _ len _ extr atts, filename =>
    !shouldSkipFile filename && decide (len ≤ MAX_FILE_SIZE) &&
    (atts.isEmpty ||
      (endsL filename (lit ".msg") &&
        match extr with | .msg .. => true | _ => false)) &&
    goodTreeList atts
termination_by structural f => f

def goodTreeList : List FileTree → Bool
  | [] => true
  | a :: rest => goodTree a (resolvedName a) && goodTreeList rest
termination_by structural l => l

end

/-! ### Response post-processing (`POST` of `analyze/route.ts`) -/

/-- JavaScript `s.trim()`. -/
def trimL (l : Str) : Str :=
  ((l.dropWhile Char.isWhitespace).reverse.dropWhile Char.isWhitespace).reverse

/-- Index of the first occurrence of a character, if any. -/
def firstIdx : Str → Char → Option Nat
  | [], _ => Option.none
  | c :: rest, t => if c = t then some 0 else (firstIdx rest t).map (· + 1)

/-- Index of the last occurrence of a character, if any. -/
def lastIdx (l : Str) (t : Char) : Option Nat :=
  (firstIdx l.reverse t).map (fun i => l.length - 1 - i)

/-- JavaScript `s.indexOf(c)` with its `-1` sentinel. -/
def jsIndexOf (l : Str) (c : Char) : Int :=
  match firstIdx l c with
  | some i => (i : Int)
  | none => -1

/-- JavaScript `s.lastIndexOf(c)` with its `-1` sentinel. -/
def jsLastIndexOf (l : Str) (c : Char) : Int :=
  match lastIdx l c with
  | some i => (i : Int)
  | none => -1

/-- JavaScript `s.includes(c)`. -/
def includesC (l : Str) (c : Char) : Bool :=
  match l with
  | [] => false
  | a :: rest => a = c || includesC rest c

/-- The chatter-stripping cleanup of `POST`: trim, and if the text contains
`{`, slice `substring(indexOf "{", lastIndexOf "}" + 1)` when the sentinel
checks pass. -/
def cleanResponse (responseText : Str) : Str :=
  let cleaned := trimL responseText
  if includesC cleaned lbrace then
    let s := jsIndexOf cleaned lbrace
    let e := jsLastIndexOf cleaned rbrace
    if s ≠ -1 ∧ e ≠ -1 ∧ s < e then
      (cleaned.drop s.toNat).take (e.toNat + 1 - s.toNat)
    else cleaned
  else cleaned

/-- The slicing rule as the specification words it: the trimmed text is
sliced from the first `{` to the last `}` when both occur and the last `}`
comes after the first `{`; otherwise it is left as-is.  (Stated on an
already-trimmed string.) -/
def sliceSpec (s : Str) : Str :=
  match firstIdx s lbrace, lastIdx s rbrace with
  | some i, some j => if i < j then (s.drop i).take (j + 1 - i) else s
  | _, _ => s

/-- `SourceMapping` of `export-client.ts` (a current-year ledger entry with
provenance).  Amounts are modelled as integers: the builder only adds and
subtracts them, so any embedding of JavaScript numbers closed under those
operations is faithful, and integers keep kernel evaluation effective. -/
structure SourceMapping where
  amount : Int
  source_file : Str
deriving Repr, DecidableEq

/-- `PropertyData` of `export-client.ts`.  JavaScript string-keyed records
are modelled as ordered association lists (object keys are unique and
iterate in insertion order). -/
structure PropertyData where
  address : Str
  income : List (Str × SourceMapping)
  income_prior : List (Str × Int)
  expenses : List (Str × SourceMapping)
  expenses_prior : List (Str × Int)
  source_files_read : List Str
  notes : Str
deriving Repr, DecidableEq

/-- `AnalysisResult`: the parsed model reply. -/
structure AnalysisResult where
  tax_year : Option Int
  properties : List PropertyData
  email_draft : Str
  all_files_detected : List Str
deriving Repr, DecidableEq

/-- Outcome of the reply post-processing in `POST`: the two distinct error
responses, or the reconciled result. -/
inductive PostResult where
  /-- `"Empty response from AI"`, status 500 -/
  | emptyResponse
  /-- `"The AI returned an invalid response…"` with
  `raw: cleanedResult.substring(0, 500)`, status 500 -/
  | malformed (raw : Str)
  | success (data : AnalysisResult)
deriving Repr, DecidableEq

/-- The reply post-processing of `POST` (`analyze/route.ts`, after the
model call): blank check, cleanup, `JSON.parse` (abstracted as `parse`,
`none` = parse throws), and the unconditional manifest overwrite
`data.all_files_detected = manifest`. -/
def reconcileOutcome (parse : Str → Option AnalysisResult)
    (responseText : Str) (manifest : List Str) : PostResult :=
  if responseText = [] ∨ trimL responseText = [] then .emptyResponse
  else
    match parse (cleanResponse responseText) with
    | none => .malformed ((cleanResponse responseText).take 500)
    | some data => .success { data with all_files_detected := manifest }

/-! ### Branch equations for `processFile` -/

theorem processFile_skip (f : FileTree) (filename currentPath : Str)
    (h : shouldSkipFile filename = true) :
    processFile f filename currentPath = ([], []) := by
  cases f with
  | mk name len b64 extr atts => simp [processFile, h]

theorem processFile_oversize (f : FileTree) (filename currentPath : Str)
    (h : MAX_FILE_SIZE < f.len) :
    processFile f filename currentPath = ([], []) := by
  cases f with
  | mk name len b64 extr atts =>
    by_cases hs : shouldSkipFile filename
    · simp [processFile, hs]
    · simp only [FileTree.len] at h
      simp [processFile, hs, h]

theorem processFile_msg_eq (name : Str) (len : Nat) (b64 : Str)
    (headers : Bool) (sn se : Option Str)
    (rcpt : Option (List (Option Str × Option Str))) (subj body : Option Str)
    (atts : List FileTree) (filename currentPath : Str)
    (hs : shouldSkipFile filename = false) (hl : len ≤ MAX_FILE_SIZE)
    (hm : endsL filename (lit ".msg") = true) :
    processFile (.mk name len b64 (.msg headers sn se rcpt subj body) atts)
        filename currentPath =
      (⟨emailTextOf (normName currentPath filename) headers sn se rcpt subj body,
         lit "text/plain"⟩ ::
         (processAttachments atts (normName currentPath filename)).1,
       normName currentPath filename ::
         (processAttachments atts (normName currentPath filename)).2) := by
  simp [processFile, hs, hm, Nat.not_lt.mpr hl]

theorem processFile_throws (name : Str) (len : Nat) (b64 : Str)
    (atts : List FileTree) (filename currentPath : Str)
    (hs : shouldSkipFile filename = false) (hl : len ≤ MAX_FILE_SIZE)
    (hext : endsL filename (lit ".msg") = true ∨ endsL filename (lit ".docx") = true
      ∨ endsL filename (lit ".xlsx") = true ∨ endsL filename (lit ".xls") = true
      ∨ endsL filename (lit ".csv") = true) :
    processFile (.mk name len b64 .throws atts) filename currentPath =
      ([], [normName currentPath filename]) := by
  have hnl := Nat.not_lt.mpr hl
  by_cases hm : endsL filename (lit ".msg")
  · simp [processFile, hs, hnl, hm]
  · by_cases hd : endsL filename (lit ".docx")
    · simp [processFile, hs, hnl, hm, hd]
    · have hx : (endsL filename (lit ".xlsx") || endsL filename (lit ".xls")
          || endsL filename (lit ".csv")) = true := by
        rcases hext with h | h | h | h | h <;> simp_all
      simp [processFile, hs, hnl, hm, hd, hx]

theorem processFile_binary (name : Str) (len : Nat) (b64 : Str)
    (extr : ExtractKind) (atts : List FileTree) (filename currentPath : Str)
    (hs : shouldSkipFile filename = false) (hl : len ≤ MAX_FILE_SIZE)
    (h1 : endsL filename (lit ".msg") = false)
    (h2 : endsL filename (lit ".docx") = false)
    (h3 : endsL filename (lit ".xlsx") = false)
    (h4 : endsL filename (lit ".xls") = false)
    (h5 : endsL filename (lit ".csv") = false)
    (h6 : startsL (getMimeType filename) (lit "image/") = true
      ∨ getMimeType filename = lit "application/pdf") :
    processFile (.mk name len b64 extr atts) filename currentPath =
      ([⟨b64, getMimeType filename⟩], [normName currentPath filename]) := by
  rcases h6 with h6 | h6 <;>
    simp [processFile, hs, Nat.not_lt.mpr hl, h1, h2, h3, h4, h5, h6]

theorem processFile_placeholder (name : Str) (len : Nat) (b64 : Str)
    (extr : ExtractKind) (atts : List FileTree) (filename currentPath : Str)
    (hs : shouldSkipFile filename = false) (hl : len ≤ MAX_FILE_SIZE)
    (h1 : endsL filename (lit ".msg") = false)
    (h2 : endsL filename (lit ".docx") = false)
    (h3 : endsL filename (lit ".xlsx") = false)
    (h4 : endsL filename (lit ".xls") = false)
    (h5 : endsL filename (lit ".csv") = false)
    (h6 : startsL (getMimeType filename) (lit "image/") = false)
    (h7 : getMimeType filename ≠ lit "application/pdf") :
    processFile (.mk name len b64 extr atts) filename currentPath =
      ([⟨lit "--- BINARY FILE: " ++ normName currentPath filename ++ lit " ---",
         lit "text/plain"⟩], [normName currentPath filename]) := by
  simp [processFile, hs, Nat.not_lt.mpr hl, h1, h2, h3, h4, h5, h6, h7]

/-- Every non-skipped, non-oversize leaf (no attachments) appends exactly
its own path, whatever dispatch branch it takes. -/
theorem processFile_snd_leaf (name : Str) (len : Nat) (b64 : Str)
    (extr : ExtractKind) (filename currentPath : Str)
    (hs : shouldSkipFile filename = false) (hl : len ≤ MAX_FILE_SIZE) :
    (processFile (.mk name len b64 extr []) filename currentPath).2 =
      [normName currentPath filename] := by
  simp only [processFile, hs, Bool.false_eq_true, if_false, Nat.not_lt.mpr hl]
  split
  · split <;> simp [processAttachments]
  · split
    · split <;> rfl
    · split
      · split <;> rfl
      · split <;> rfl

theorem append_sep_ne_nil (p q : Str) : p ++ lit " > " ++ q ≠ [] := by
  intro h
  have h3 : (lit " > ").length = 3 := rfl
  have h0 : (p ++ lit " > " ++ q).length = 0 := by rw [h]; rfl
  simp only [List.length_append, h3] at h0
  omega

theorem normName_of_ne_nil (c f : Str) (h : c ≠ []) : normName c f = c := by
  unfold normName
  rw [if_neg h]

/-! ### Extension and case-folding lemmas -/

theorem endsL_eq_true_iff (l s : Str) : endsL l s = true ↔ s <:+ l := by
  simp [endsL]

theorem lowerL_append (x y : Str) : lowerL (x ++ y) = lowerL x ++ lowerL y :=
  List.map_append _ x y

theorem splitOnDot_ne_nil (l : Str) : splitOnDot l ≠ [] := by
  induction l with
  | nil => simp [splitOnDot]
  | cons c rest ih =>
    by_cases h : c = '.'
    · simp [splitOnDot, h]
    · simp only [splitOnDot, if_neg h]
      split <;> simp

theorem splitOnDot_no_dot {l : Str} (h : '.' ∉ l) : splitOnDot l = [l] := by
  induction l with
  | nil => rfl
  | cons c rest ih =>
    have hc : ¬c = '.' := fun hcc => h (hcc ▸ List.mem_cons_self c rest)
    have hr : '.' ∉ rest := fun hm => h (List.mem_cons_of_mem _ hm)
    simp only [splitOnDot, if_neg hc, ih hr]

theorem splitOnDot_len_ge_two {l : Str} (h : '.' ∈ l) :
    2 ≤ (splitOnDot l).length := by
  induction l with
  | nil => simp at h
  | cons c rest ih =>
    by_cases hc : c = '.'
    · simp only [splitOnDot, if_pos hc, List.length_cons]
      have := splitOnDot_ne_nil rest
      have : 1 ≤ (splitOnDot rest).length := List.length_pos.mpr this
      omega
    · have hr : '.' ∈ rest := by
        rcases List.mem_cons.mp h with h1 | h1
        · exact absurd h1.symm hc
        · exact h1
      simp only [splitOnDot, if_neg hc]
      cases hsp : splitOnDot rest with
      | nil => exact absurd hsp (splitOnDot_ne_nil rest)
      | cons g gs =>
        have := ih hr
        rw [hsp] at this
        simpa using this

theorem getLastD_ne_nil {α : Type} {xs : List α} (h : xs ≠ []) (d1 d2 : α) :
    xs.getLastD d1 = xs.getLastD d2 := by
  cases xs with
  | nil => exact absurd rfl h
  | cons a l => rw [List.getLastD_cons, List.getLastD_cons]

theorem getLastD_splitOnDot_append (pre s : Str) (hdot : '.' ∉ s) :
    (splitOnDot (pre ++ '.' :: s)).getLastD [] = s := by
  induction pre with
  | nil =>
    simp only [List.nil_append, splitOnDot, if_pos rfl]
    rw [splitOnDot_no_dot hdot]
    rfl
  | cons c pre ih =>
    by_cases hc : c = '.'
    · subst hc
      rw [List.cons_append,
        show splitOnDot ('.' :: (pre ++ '.' :: s)) = [] :: splitOnDot (pre ++ '.' :: s)
          from by simp [splitOnDot]]
      rw [List.getLastD_cons]
      have hne := splitOnDot_ne_nil (pre ++ '.' :: s)
      rw [getLastD_ne_nil hne [] ([] : Str)] at ih ⊢
      exact ih
    · simp only [List.cons_append, splitOnDot, if_neg hc]
      cases hsp : splitOnDot (pre ++ '.' :: s) with
      | nil => exact absurd hsp (splitOnDot_ne_nil _)
      | cons g gs =>
        have hgs : gs ≠ [] := by
          have h2 := splitOnDot_len_ge_two (l := pre ++ '.' :: s) (by simp)
          rw [hsp] at h2
          simp only [List.length_cons] at h2
          exact List.ne_nil_of_length_pos (by omega)
        rw [List.getLastD_cons]
        rw [hsp, List.getLastD_cons] at ih
        rw [getLastD_ne_nil hgs (c :: g) g]
        exact ih

theorem getExt_of_suffix {l s : Str} (hdot : '.' ∉ s) (hsfx : ('.' :: s) <:+ l) :
    getExt l = lowerL s := by
  obtain ⟨pre, hpre⟩ := hsfx
  subst hpre
  unfold getExt
  rw [getLastD_splitOnDot_append pre s hdot]

theorem not_endsL_of_getExt {l s : Str} (hdot : '.' ∉ s)
    (hne : getExt l ≠ lowerL s) : endsL l ('.' :: s) = false := by
  cases hE : endsL l ('.' :: s) with
  | false => rfl
  | true => exact absurd (getExt_of_suffix hdot ((endsL_eq_true_iff _ _).mp hE)) hne

theorem startsL_dot_append (stem a b : Str) (ha : a.head? = some '.')
    (hb : b.head? = some '.') :
    startsL (stem ++ a) (lit ".") = startsL (stem ++ b) (lit ".") := by
  cases stem with
  | nil =>
    cases a with
    | nil => simp at ha
    | cons x xs =>
      cases b with
      | nil => simp at hb
      | cons y ys =>
        simp only [List.head?] at ha hb
        cases ha
        cases hb
        simp [startsL, lit, List.isPrefixOf]
  | cons c cs => simp [startsL, lit, List.isPrefixOf]

theorem startsL_tilde_append (stem a b : Str) (ha : a.head? = some '.')
    (hb : b.head? = some '.') :
    startsL (stem ++ a) (lit "~$") = startsL (stem ++ b) (lit "~$") := by
  cases stem with
  | nil =>
    cases a with
    | nil => simp at ha
    | cons x xs =>
      cases b with
      | nil => simp at hb
      | cons y ys =>
        simp only [List.head?] at ha hb
        cases ha
        cases hb
        simp [startsL, lit, List.isPrefixOf]
  | cons c cs =>
    cases cs with
    | nil =>
      cases a with
      | nil => simp at ha
      | cons x xs =>
        cases b with
        | nil => simp at hb
        | cons y ys =>
          simp only [List.head?] at ha hb
          cases ha
          cases hb
          simp [startsL, lit, List.isPrefixOf]
    | cons c2 cs2 => simp [startsL, lit, List.isPrefixOf]

theorem shouldSkipFile_case_pair (stem up low : Str)
    (hu : up.head? = some '.') (hl : low.head? = some '.')
    (hlow : lowerL up = lowerL low) :
    shouldSkipFile (stem ++ up) = shouldSkipFile (stem ++ low) := by
  unfold shouldSkipFile
  rw [startsL_dot_append stem up low hu hl, startsL_tilde_append stem up low hu hl,
    lowerL_append, lowerL_append, hlow]

/-! ### The depth-first manifest theorem -/

theorem processFile_manifest_eq :
    ∀ (f : FileTree) (filename currentPath : Str),
      goodTree f filename = true →
      (processFile f filename currentPath).2 =
        dfsPaths f (normName currentPath filename) := by
  refine processFile.induct
    (fun f filename currentPath => goodTree f filename = true →
      (processFile f filename currentPath).2 =
        dfsPaths f (normName currentPath filename))
    (fun atts parent => goodTreeList atts = true →
      (processAttachments atts parent).2 = dfsPathsList atts parent)
    ?_ ?_ ?_ ?_ ?_
  · intro name len b64 extr atts filename currentPath hskip hg
    exfalso
    revert hg
    simp [goodTree, hskip]
  · intro name len b64 extr atts filename currentPath hskip hover hg
    exfalso
    revert hg
    simp [goodTree, Nat.not_le.mpr hover]
  · intro name len b64 extr atts filename currentPath hskip hover ih hg
    simp only [goodTree, Bool.and_eq_true, Bool.not_eq_eq_eq_not, Bool.not_true,
      Bool.or_eq_true] at hg
    obtain ⟨⟨⟨hs, hl⟩, hbranch⟩, hlist⟩ := hg
    have hl' : len ≤ MAX_FILE_SIZE := by simpa using hl
    rcases hbranch with hemp | hmsg
    · have : atts = [] := by simpa using hemp
      subst this
      rw [processFile_snd_leaf name len b64 extr filename currentPath hs hl']
      simp [dfsPaths, dfsPathsList]
    · obtain ⟨hm, hextr⟩ := hmsg
      cases extr with
      | msg headers sn se rcpt subj body =>
        rw [processFile_msg_eq name len b64 headers sn se rcpt subj body atts
          filename currentPath hs hl' hm]
        simp only [dfsPaths]
        rw [ih hlist]
      | throws => simp at hextr
      | docx _ => simp at hextr
      | sheets _ => simp at hextr
      | unused => simp at hextr
  · intro parent hg
    simp [processAttachments, dfsPathsList]
  · intro a rest parent iha ihrest hg
    rw [show goodTreeList (a :: rest) = (goodTree a (resolvedName a) && goodTreeList rest) from rfl,
      Bool.and_eq_true] at hg
    obtain ⟨hga, hgrest⟩ := hg
    have hpath : normName (parent ++ lit " > " ++ resolvedName a) (resolvedName a) =
        parent ++ lit " > " ++ resolvedName a :=
      normName_of_ne_nil _ _ (append_sep_ne_nil parent (resolvedName a))
    simp only [processAttachments, dfsPathsList]
    rw [iha hga, ihrest hgrest, hpath]

theorem dfsPaths_length :
    ∀ (f : FileTree) (p : Str), (dfsPaths f p).length = 1 + countAttachments f := by
  refine dfsPaths.induct
    (fun f p => (dfsPaths f p).length = 1 + countAttachments f)
    (fun atts parent => (dfsPathsList atts parent).length = countAttachmentsList atts)
    ?_ ?_ ?_
  · intro name len b64 extr atts path ih
    simp [dfsPaths, countAttachments, ih]
    try omega
  · intro parent
    simp [dfsPathsList, countAttachmentsList]
  · intro a rest parent iha ihrest
    simp only [dfsPathsList, countAttachmentsList, List.length_append, iha, ihrest]
    try omega

/-- C2: for a file tree in which no file is skipped or oversize and every
file carrying attachments is a successfully unpacked `.msg` container, the
manifest entries appended by `processFile` are exactly the depth-first
pre-order breadcrumb paths — each attachment listed under its ancestor
chain joined with `" > "` — and their number is exactly one (the
container's own entry) plus the recursively counted number of attachments;
in particular no entry is appended twice for the same traversal. -/
theorem normalizer_manifest_depth_first (f : FileTree) (filename currentPath : Str)
    (h : goodTree f filename = true) :
    (processFile f filename currentPath).2 = dfsPaths f (normName currentPath filename)
    ∧ (processFile f filename currentPath).2.length = 1 + countAttachments f := by
  have he := processFile_manifest_eq f filename currentPath h
  exact ⟨he, by rw [he, dfsPaths_length]⟩

/-- A nested container: `outer.msg` holding `inner.msg` (which holds
`a.pdf`) and `b.pdf`. -/
def exNested : FileTree :=
  .mk (lit "outer.msg") 100 []
    (.msg false Option.none Option.none Option.none Option.none Option.none)
    [.mk (lit "inner.msg") 50 []
       (.msg false Option.none Option.none Option.none Option.none Option.none)
       [.mk (lit "a.pdf") 10 (lit "AAAA") .unused []],
     .mk (lit "b.pdf") 10 (lit "BBBB") .unused []]

/-- Witness for C2 on the concrete nested container: three recursively
counted attachments, four manifest entries in depth-first order with
breadcrumb paths. -/
theorem normalizer_manifest_depth_first_witness :
    goodTree exNested (lit "outer.msg") = true
    ∧ (processFile exNested (lit "outer.msg") []).2 =
        dfsPaths exNested (normName [] (lit "outer.msg"))
    ∧ (processFile exNested (lit "outer.msg") []).2.length = 1 + countAttachments exNested
    ∧ (processFile exNested (lit "outer.msg") []).2 =
        [lit "outer.msg", lit "outer.msg > inner.msg",
         lit "outer.msg > inner.msg > a.pdf", lit "outer.msg > b.pdf"] :=
  ⟨by decide,
   (normalizer_manifest_depth_first exNested (lit "outer.msg") [] (by decide)).1,
   (normalizer_manifest_depth_first exNested (lit "outer.msg") [] (by decide)).2,
   by decide⟩

/-- A container with a single 15 MiB attachment. -/
def exBigAttach : FileTree :=
  .mk (lit "report.msg") 2048 []
    (.msg false Option.none Option.none Option.none Option.none Option.none)
    [.mk (lit "huge.pdf") 15728640 (lit "QQ") .unused []]

/-- C6: any file larger than 10 MiB yields the empty part sequence and no
manifest entry (the oversize test precedes the manifest append), and a
container holding one 15 MiB attachment still contributes its own text
part and its own manifest entry while the attachment contributes
neither. -/
theorem oversize_files_silently_excluded :
    (∀ (f : FileTree) (filename currentPath : Str),
      MAX_FILE_SIZE < f.len → processFile f filename currentPath = ([], []))
    ∧ processFile exBigAttach (lit "report.msg") [] =
        ([⟨emailTextOf (lit "report.msg") false Option.none Option.none Option.none
             Option.none Option.none, lit "text/plain"⟩],
         [lit "report.msg"]) :=
  ⟨processFile_oversize, by decide⟩

/-- Witness for C6 at a concrete 15 MiB file. -/
theorem oversize_files_silently_excluded_witness :
    MAX_FILE_SIZE < (FileTree.mk (lit "huge.pdf") 15728640 (lit "QQ") .unused []).len
    ∧ processFile (.mk (lit "huge.pdf") 15728640 (lit "QQ") .unused [])
        (lit "huge.pdf") [] = ([], []) :=
  ⟨by decide,
   oversize_files_silently_excluded.1 (.mk (lit "huge.pdf") 15728640 (lit "QQ") .unused [])
     (lit "huge.pdf") [] (by decide)⟩

/-- C7: a file whose extraction-library call throws contributes zero parts
while its manifest entry (appended before dispatch) is kept; and inside a
container, a throwing first attachment leaves the container's own email
part, keeps the failed attachment's manifest entry, and the remaining
sibling attachments are still processed. -/
theorem extraction_failure_isolated :
    (∀ (name : Str) (len : Nat) (b64 : Str) (atts : List FileTree)
       (filename currentPath : Str),
       shouldSkipFile filename = false → len ≤ MAX_FILE_SIZE →
       (endsL filename (lit ".msg") = true ∨ endsL filename (lit ".docx") = true
         ∨ endsL filename (lit ".xlsx") = true ∨ endsL filename (lit ".xls") = true
         ∨ endsL filename (lit ".csv") = true) →
       processFile (.mk name len b64 .throws atts) filename currentPath =
         ([], [normName currentPath filename]))
    ∧ (∀ (name : Str) (len : Nat) (b64 : Str) (headers : Bool) (sn se : Option Str)
         (rcpt : Option (List (Option Str × Option Str))) (subj body : Option Str)
         (bad : FileTree) (rest : List FileTree) (filename currentPath : Str),
         shouldSkipFile filename = false → len ≤ MAX_FILE_SIZE →
         endsL filename (lit ".msg") = true →
         bad.extract = .throws →
         shouldSkipFile (resolvedName bad) = false → bad.len ≤ MAX_FILE_SIZE →
         (endsL (resolvedName bad) (lit ".msg") = true
           ∨ endsL (resolvedName bad) (lit ".docx") = true
           ∨ endsL (resolvedName bad) (lit ".xlsx") = true
           ∨ endsL (resolvedName bad) (lit ".xls") = true
           ∨ endsL (resolvedName bad) (lit ".csv") = true) →
         processFile (.mk name len b64 (.msg headers sn se rcpt subj body) (bad :: rest))
             filename currentPath =
           (⟨emailTextOf (normName currentPath filename) headers sn se rcpt subj body,
              lit "text/plain"⟩ ::
              (processAttachments rest (normName currentPath filename)).1,
            normName currentPath filename ::
              (normName currentPath filename ++ lit " > " ++ resolvedName bad) ::
              (processAttachments rest (normName currentPath filename)).2)) := by
  constructor
  · exact processFile_throws
  · intro name len b64 headers sn se rcpt subj body bad rest filename currentPath
      hs hl hm hbext hbs hbl hbsfx
    rw [processFile_msg_eq name len b64 headers sn se rcpt subj body (bad :: rest)
      filename currentPath hs hl hm]
    simp only [processAttachments]
    obtain ⟨bname, blen, bb64, bextr, batts⟩ := bad
    simp only [FileTree.extract] at hbext
    subst hbext
    simp only [FileTree.len] at hbl
    rw [processFile_throws bname blen bb64 batts (resolvedName (.mk bname blen bb64 .throws batts))
      (normName currentPath filename ++ lit " > " ++ resolvedName (.mk bname blen bb64 .throws batts))
      hbs hbl hbsfx]
    rw [normName_of_ne_nil _ _ (append_sep_ne_nil (normName currentPath filename)
      (resolvedName (.mk bname blen bb64 .throws batts)))]
    rfl

/-- Witness for C7: a container `m.msg` whose first attachment `bad.xlsx`
throws on extraction while the sibling `ok.pdf` is still processed. -/
theorem extraction_failure_isolated_witness :
    processFile
        (.mk (lit "m.msg") 40 []
          (.msg false Option.none Option.none Option.none Option.none Option.none)
          [.mk (lit "bad.xlsx") 22 (lit "XX") .throws [],
           .mk (lit "ok.pdf") 9 (lit "PP") .unused []])
        (lit "m.msg") [] =
      ([⟨emailTextOf (lit "m.msg") false Option.none Option.none Option.none
           Option.none Option.none, lit "text/plain"⟩,
        ⟨lit "PP", lit "application/pdf"⟩],
       [lit "m.msg", lit "m.msg > bad.xlsx", lit "m.msg > ok.pdf"]) := by
  have h := extraction_failure_isolated.2 (lit "m.msg") 40 [] false Option.none
    Option.none Option.none Option.none Option.none
    (.mk (lit "bad.xlsx") 22 (lit "XX") .throws [])
    [.mk (lit "ok.pdf") 9 (lit "PP") .unused []]
    (lit "m.msg") [] (by decide) (by decide) (by decide) (by decide) (by decide)
    (by decide) (by decide)
  rw [h]
  decide

/-! ### Workbook builder (`generateAuditPackage` of `export-client.ts`)

The Excel side is modelled as: build the row grid (`buildRows`, the
`rows.push` sequence), convert it to a sheet (`aoaToSheet`), scan for the
section boundaries (`scanRows`, the `rows.forEach` of step 1), then apply
— pointwise, as each loop iteration writes a distinct cell — the per-row
variance formulas (step 3), the section total/net formula replacements
(steps 4–5) and the hyperlink pass.  The display-only `z` number-format
property is omitted from the cell model. -/

/-- A JavaScript array-of-arrays cell value: string or number. -/
inductive CellV where
  | s (v : Str)
  | n (v : Int)
deriving Repr, DecidableEq

abbrev Row := List CellV

/-- A cell formula: `ref - ref` (written `"<C r1>-<C r2>"`) or a
single-column `SUM` range. -/
inductive Formula where
  | sub (c1 r1 c2 r2 : Nat)
  | sum (c : Nat) (r1 r2 : Nat)
deriving Repr, DecidableEq

/-- A worksheet cell: cached value `v`, formula `f`, hyperlink target
`l` (the constant tooltip is omitted). -/
structure Cell where
  v : Option CellV
  f : Option Formula
  l : Option Str
deriving Repr, DecidableEq

/-- A worksheet, addressed `(column, row)`. -/
abbrev Sheet := Nat → Nat → Option Cell

/-- `XLSX.utils.aoa_to_sheet`: every present array entry becomes a
value-only cell. -/
def aoaToSheet (rows : List Row) : Sheet := fun c r =>
  match rows.get? r with
  | some row =>
    match row.get? c with
    | some v => some ⟨some v, Option.none, Option.none⟩
    | Option.none => Option.none
  | Option.none => Option.none

/-- Strict lexicographic comparison of strings by character code —
JavaScript's default `Array.prototype.sort` comparator on strings. -/
def strLt : Str → Str → Bool
  | [], [] => false
  | [], _ :: _ => true
  | _ :: _, [] => false
  | a :: as, b :: bs => if a < b then true else if b < a then false else strLt as bs

def strLe (a b : Str) : Bool := !strLt b a

theorem strLt_asymm : ∀ a b : Str, strLt a b = true → strLt b a = false := by
  intro a
  induction a with
  | nil =>
    intro b h
    cases b with
    | nil => simp [strLt] at h
    | cons y ys => simp [strLt]
  | cons x xs ih =>
    intro b h
    cases b with
    | nil => simp [strLt] at h
    | cons y ys =>
      by_cases hxy : x < y
      · have hyx : ¬ y < x := asymm hxy
        simp [strLt, hyx, hxy]
      · by_cases hyx : y < x
        · simp [strLt, hxy, hyx] at h
        · simp [strLt, hxy, hyx] at h ⊢
          exact ih ys h

theorem strLt_connex : ∀ a b : Str, strLt a b = false → strLt b a = false → a = b := by
  intro a
  induction a with
  | nil =>
    intro b h1 _
    cases b with
    | nil => rfl
    | cons y ys => simp [strLt] at h1
  | cons x xs ih =>
    intro b h1 h2
    cases b with
    | nil => simp [strLt] at h2
    | cons y ys =>
      rcases lt_trichotomy x y with h | h | h
      · simp [strLt, h] at h1
      · subst h
        simp [strLt, lt_irrefl] at h1 h2
        rw [ih ys h1 h2]
      · simp [strLt, h, asymm h] at h2

theorem strLt_trans : ∀ a b c : Str,
    strLt a b = true → strLt b c = true → strLt a c = true := by
  intro a
  induction a with
  | nil =>
    intro b c h1 h2
    cases b with
    | nil => simp [strLt] at h1
    | cons y ys =>
      cases c with
      | nil => simp [strLt] at h2
      | cons z zs => simp [strLt]
  | cons x xs ih =>
    intro b c h1 h2
    cases b with
    | nil => simp [strLt] at h1
    | cons y ys =>
      cases c with
      | nil => simp [strLt] at h2
      | cons z zs =>
        by_cases hyz : y < z
        · by_cases hxy : x < y
          · simp [strLt, lt_trans hxy hyz]
          · by_cases hyx : y < x
            · simp [strLt, hxy, hyx] at h1
            · have hx_eq : x = y := by
                rcases lt_trichotomy x y with h | h | h
                · exact absurd h hxy
                · exact h
                · exact absurd h hyx
              subst hx_eq
              simp [strLt, hyz]
        · by_cases hzy : z < y
          · simp [strLt, hyz, hzy] at h2
          · have hy_eq : y = z := by
              rcases lt_trichotomy y z with h | h | h
              · exact absurd h hyz
              · exact h
              · exact absurd h hzy
            subst hy_eq
            simp only [strLt] at h2
            rw [if_neg (lt_irrefl y), if_neg (lt_irrefl y)] at h2
            by_cases hxy : x < y
            · simp [strLt, hxy]
            · by_cases hyx : y < x
              · simp [strLt, hxy, hyx] at h1
              · simp only [strLt, if_neg hxy, if_neg hyx] at h1 ⊢
                exact ih ys zs h1 h2

/-- `strLe` as a relation, for sorting. -/
def strLeR (a b : Str) : Prop := strLe a b = true

instance : DecidableRel strLeR :=
  fun a b => inferInstanceAs (Decidable (strLe a b = true))

instance : IsTotal Str strLeR :=
  ⟨by
    intro a b
    unfold strLeR strLe
    cases h : strLt b a
    · left
      simp
    · right
      simp [strLt_asymm b a h]⟩

instance : IsTrans Str strLeR :=
  ⟨by
    intro a b c hab hbc
    unfold strLeR strLe at *
    simp only [Bool.not_eq_true'] at hab hbc ⊢
    cases hca : strLt c a
    · rfl
    · exfalso
      cases hbc2 : strLt b c
      · have hbceq : b = c := strLt_connex b c hbc2 hbc
        subst hbceq
        rw [hca] at hab
        simp at hab
      · have h3 := strLt_trans b c a hbc2 hca
        rw [h3] at hab
        simp at hab⟩

/-- `Array.from(new Set([...keysCur, ...keysPrior])).sort()`: the
duplicate-free union of the two key lists, sorted lexicographically.
(`List.dedup` keeps different duplicates than a JavaScript `Set`, but the
sorted result is the same list.) -/
def mergedCats (cur pri : List Str) : List Str :=
  List.insertionSort strLeR ((cur ++ pri).dedup)

/-- `prop.income_prior?.[cat] || 0`. -/
def lookupRat (m : List (Str × Int)) (k : Str) : Int :=
  match m.find? (fun p => p.1 = k) with
  | some p => p.2
  | Option.none => 0

/-- `prop.income?.[cat]` (an object or `undefined`). -/
def lookupSM (m : List (Str × SourceMapping)) (k : Str) : Option SourceMapping :=
  (m.find? (fun p => p.1 = k)).map Prod.snd

/-- `typeof currentObj === 'object' ? currentObj.amount : (currentObj || 0)`. -/
def currentAmt (m : List (Str × SourceMapping)) (k : Str) : Int :=
  match lookupSM m k with
  | some sm => sm.amount
  | Option.none => 0

/-- `typeof currentObj === 'object' ? currentObj.source_file : ""`. -/
def currentSrc (m : List (Str × SourceMapping)) (k : Str) : Str :=
  match lookupSM m k with
  | some sm => sm.source_file
  | Option.none => []

/-- One category data row:
`[cat, prior, current, current - prior, source]`. -/
def catRow (pri : List (Str × Int)) (cur : List (Str × SourceMapping))
    (cat : Str) : Row :=
  [.s cat, .n (lookupRat pri cat), .n (currentAmt cur cat),
   .n (currentAmt cur cat - lookupRat pri cat), .s (currentSrc cur cat)]

/-- The `totalPrior` accumulator of the category loop. -/
def totalOfRat (pri : List (Str × Int)) (cats : List Str) : Int :=
  (cats.map (lookupRat pri)).sum

/-- The `totalCurrent` accumulator of the category loop. -/
def totalOfCur (cur : List (Str × SourceMapping)) (cats : List Str) : Int :=
  (cats.map (currentAmt cur)).sum

/-- The income categories of a property, merged and sorted. -/
def incomeCatsOf (prop : PropertyData) : List Str :=
  mergedCats (prop.income.map Prod.fst) (prop.income_prior.map Prod.fst)

/-- The expense categories of a property, merged and sorted. -/
def expenseCatsOf (prop : PropertyData) : List Str :=
  mergedCats (prop.expenses.map Prod.fst) (prop.expenses_prior.map Prod.fst)

/-- The `rows.push` sequence of `generateAuditPackage` for one property
(the year labels are passed in already formatted). -/
def buildRows (prop : PropertyData) (priorYearLabel currentYearLabel : Str) :
    List Row :=
  let incomeCats := incomeCatsOf prop
  let expenseCats := expenseCatsOf prop
  let totalPrior := totalOfRat prop.income_prior incomeCats
  let totalCurrent := totalOfCur prop.income incomeCats
  let totalExpPrior := totalOfRat prop.expenses_prior expenseCats
  let totalExpCurrent := totalOfCur prop.expenses expenseCats
  [[.s (lit "PROPERTY SUMMARY"),
    .s (if prop.address = [] then lit "Unknown" else prop.address)],
   [.s []],
   [.s (lit "INCOME"), .s priorYearLabel, .s currentYearLabel,
    .s (lit "Variance"), .s (lit "Source File (Link)")]]
  ++ incomeCats.map (catRow prop.income_prior prop.income)
  ++ [[.s (lit "TOTAL INCOME"), .n totalPrior, .n totalCurrent,
       .n (totalCurrent - totalPrior)],
      [.s []],
      [.s (lit "EXPENSES"), .s priorYearLabel, .s currentYearLabel,
       .s (lit "Variance"), .s (lit "Source File (Link)")]]
  ++ expenseCats.map (catRow prop.expenses_prior prop.expenses)
  ++ [[.s (lit "TOTAL EXPENSES"), .n totalExpPrior, .n totalExpCurrent,
       .n (totalExpCurrent - totalExpPrior)],
      [.s []],
      [.s (lit "NET RENTAL INCOME"), .n (totalPrior - totalExpPrior),
       .n (totalCurrent - totalExpCurrent),
       .n ((totalCurrent - totalExpCurrent) - (totalPrior - totalExpPrior))]]
  ++ (if prop.notes = [] then []
      else [[.s []], [.s (lit "NOTES / MISSING INFO")], [.s prop.notes]])
  ++ [[.s []], [.s (lit "FILES PROCESSED FOR THIS PROPERTY")]]
  ++ prop.source_files_read.map (fun f => [.s f])

/-- The section-boundary indices collected by the first `rows.forEach`
pass, with JavaScript's `-1` sentinels. -/
@[ext]
structure ScanState where
  incomeStart : Int
  incomeEnd : Int
  totalIncomeRow : Int
  expenseStart : Int
  expenseEnd : Int
  totalExpenseRow : Int
  netIncomeRow : Int
deriving Repr, DecidableEq

def initScan : ScanState := ⟨-1, -1, -1, -1, -1, -1, -1⟩

/-- `r[0]`. -/
def firstCell (row : Row) : Option CellV := row.get? 0

/-- One iteration of the section scan. -/
def scanStep (st : ScanState) (i : Nat) (row : Row) : ScanState :=
  match firstCell row with
  | some (.s v) =>
    if v = lit "INCOME" then { st with incomeStart := (i : Int) + 1 }
    else if v = lit "TOTAL INCOME" then
      { st with incomeEnd := (i : Int) - 1, totalIncomeRow := (i : Int) }
    else if v = lit "EXPENSES" then { st with expenseStart := (i : Int) + 1 }
    else if v = lit "TOTAL EXPENSES" then
      { st with expenseEnd := (i : Int) - 1, totalExpenseRow := (i : Int) }
    else if v = lit "NET RENTAL INCOME" then { st with netIncomeRow := (i : Int) }
    else st
  | _ => st

def scanRows : ScanState → Nat → List Row → ScanState
  | st, _, [] => st
  | st, i, row :: rest => scanRows (scanStep st i row) (i + 1) rest

/-- The sentinel list of the per-row variance-formula condition. -/
def varianceSentinels : List Str :=
  [lit "INCOME", lit "EXPENSES", lit "TOTAL INCOME", lit "TOTAL EXPENSES",
   lit "NET RENTAL INCOME", lit ""]

/-- JavaScript truthiness of a cell value. -/
def cellTruthy : CellV → Bool
  | .s v => !(v = [] : Bool)
  | .n q => !(q = 0 : Bool)

/-- The guard of step 3 (per-row variance formulas). -/
def varianceCond (row : Row) (r : Nat) : Bool :=
  decide (0 < r) &&
  (match firstCell row with
   | some (.s v) =>
     cellTruthy (.s v) && !(varianceSentinels.contains v)
       && !(startsL v (lit "NOTES")) && !(startsL v (lit "FILES"))
   | some (.n q) => cellTruthy (.n q)
   | Option.none => false)

def varianceAt (rows : List Row) (r : Nat) : Bool :=
  match rows.get? r with
  | some row => varianceCond row r
  | Option.none => false

/-- Step 3: set `cellD.f = "C<r>-B<r>"` on existing column-3 cells of data
rows. -/
def applyVariance (rows : List Row) (ws : Sheet) : Sheet := fun c r =>
  match ws c r with
  | some cell =>
    if c = 3 ∧ varianceAt rows r = true then
      some { cell with f := some (.sub 2 r 1 r) }
    else some cell
  | Option.none => Option.none

/-- Steps 4–5: replace the total and net cells with formula-only cells
(`worksheet[ref] = { f: …, z: … }` drops the cached value). -/
def applyTotals (st : ScanState) (ws : Sheet) : Sheet := fun c r =>
  let v0 := ws c r
  let v1 :=
    if st.incomeStart ≠ -1 ∧ st.incomeEnd ≥ st.incomeStart ∧ (r : Int) = st.totalIncomeRow then
      if c = 1 then
        some ⟨Option.none, some (.sum 1 st.incomeStart.toNat st.incomeEnd.toNat), Option.none⟩
      else if c = 2 then
        some ⟨Option.none, some (.sum 2 st.incomeStart.toNat st.incomeEnd.toNat), Option.none⟩
      else if c = 3 then
        some ⟨Option.none, some (.sub 2 st.totalIncomeRow.toNat 1 st.totalIncomeRow.toNat),
              Option.none⟩
      else v0
    else v0
  let v2 :=
    if st.expenseStart ≠ -1 ∧ st.expenseEnd ≥ st.expenseStart ∧ (r : Int) = st.totalExpenseRow then
      if c = 1 then
        some ⟨Option.none, some (.sum 1 st.expenseStart.toNat st.expenseEnd.toNat), Option.none⟩
      else if c = 2 then
        some ⟨Option.none, some (.sum 2 st.expenseStart.toNat st.expenseEnd.toNat), Option.none⟩
      else if c = 3 then
        some ⟨Option.none, some (.sub 2 st.totalExpenseRow.toNat 1 st.totalExpenseRow.toNat),
              Option.none⟩
      else v1
    else v1
  if st.netIncomeRow ≠ -1 ∧ st.totalIncomeRow ≠ -1 ∧ st.totalExpenseRow ≠ -1
      ∧ (r : Int) = st.netIncomeRow then
    if c = 1 then
      some ⟨Option.none, some (.sub 1 st.totalIncomeRow.toNat 1 st.totalExpenseRow.toNat),
            Option.none⟩
    else if c = 2 then
      some ⟨Option.none, some (.sub 2 st.totalIncomeRow.toNat 2 st.totalExpenseRow.toNat),
            Option.none⟩
    else if c = 3 then
      some ⟨Option.none, some (.sub 2 st.netIncomeRow.toNat 1 st.netIncomeRow.toNat),
            Option.none⟩
    else v2
  else v2

/-- `sourceFile.replace(/ > /g, "_attachments/")`: every leftmost,
non-overlapping occurrence of the breadcrumb separator is replaced, and
scanning resumes after the replacement (first-match-wins pattern order). -/
def replaceSep : Str → Str
  | [] => []
  | ' ' :: '>' :: ' ' :: rest => lit "_attachments/" ++ replaceSep rest
  | c :: rest => c :: replaceSep rest

/-- The character substitution of `.replace(/\\/g, "/")`. -/
def bslash2slash (c : Char) : Char := if c = '\\' then '/' else c

/-- `.replace(/\\/g, "/")`: a single-character global replacement is a
character map. -/
def replaceBackslash (l : Str) : Str := l.map bslash2slash

/-- The hyperlink path rewrite:
`sourceFile.replace(/ > /g, "_attachments/").replace(/\\/g, "/")`. -/
def sanitizePath (s : Str) : Str := replaceBackslash (replaceSep s)

/-- Whether `" > "` occurs (as a contiguous substring). -/
def containsSep : Str → Bool
  | [] => false
  | c :: rest => startsL (c :: rest) (lit " > ") || containsSep rest

/-- The hyperlink guard:
`sourceFile && rIdx > 0 && r[0] !== "INCOME" && r[0] !== "EXPENSES" && !r[0].startsWith("TOTAL")`.
(On the built rows `r[0]` is a string whenever `r[4]` exists.) -/
def hyperlinkCond (row : Row) (r : Nat) : Bool :=
  (match row.get? 4 with
   | some cv => cellTruthy cv
   | Option.none => false) &&
  decide (0 < r) &&
  (match firstCell row with
   | some (.s v) =>
     !(v = lit "INCOME" : Bool) && !(v = lit "EXPENSES" : Bool)
       && !(startsL v (lit "TOTAL"))
   | _ => false)

/-- The hyperlink target attached to a row's column-4 cell, when any. -/
def hyperlinkTarget (row : Row) (r : Nat) : Option Str :=
  if hyperlinkCond row r then
    match row.get? 4 with
    | some (.s v) => some (lit "Source_Documents/" ++ sanitizePath v)
    | _ => Option.none
  else Option.none

/-- The hyperlink pass (`worksheet[cellRef].l = { Target: … }`). -/
def applyHyperlinks (rows : List Row) (ws : Sheet) : Sheet := fun c r =>
  match ws c r with
  | some cell =>
    if c = 4 then
      match rows.get? r with
      | some row =>
        match hyperlinkTarget row r with
        | some t => some { cell with l := some t }
        | Option.none => some cell
      | Option.none => some cell
    else some cell
  | Option.none => Option.none

/-- The full per-property worksheet. -/
def buildSheet (prop : PropertyData) (priorYearLabel currentYearLabel : Str) :
    Sheet :=
  let rows := buildRows prop priorYearLabel currentYearLabel
  applyHyperlinks rows
    (applyTotals (scanRows initScan 0 rows) (applyVariance rows (aoaToSheet rows)))

/-- The numeric value of a cached cell value (non-numeric cells count 0 in
`SUM`, as in a spreadsheet). -/
def evalCellV : Option CellV → Int
  | some (.n q) => q
  | _ => 0

/-- Fuel-bounded spreadsheet evaluation: a formula overrides the cached
value; `SUM` ranges over one column. -/
def evalCell (ws : Sheet) : Nat → Nat → Nat → Int
  | 0, _, _ => 0
  | fuel + 1, c, r =>
    match ws c r with
    | some cell =>
      match cell.f with
      | some (.sub c1 r1 c2 r2) => evalCell ws fuel c1 r1 - evalCell ws fuel c2 r2
      | some (.sum cc r1 r2) =>
        ((List.range' r1 (r2 + 1 - r1)).map (fun rr => evalCell ws fuel cc rr)).sum
      | Option.none => evalCellV cell.v
    | Option.none => 0

/-- The scan outcome for a property sheet with `n` income and `m` expense
category rows. -/
def expectedScan (n m : Nat) : ScanState :=
  ⟨3, 2 + (n : Int), 3 + (n : Int), 6 + (n : Int), 5 + (n : Int) + (m : Int),
   6 + (n : Int) + (m : Int), 8 + (n : Int) + (m : Int)⟩

/-- The row index of the `TOTAL INCOME` row in a property sheet. -/
def incomeTotalRowIdx (prop : PropertyData) : Nat := 3 + (incomeCatsOf prop).length

/-- The row index of the `TOTAL EXPENSES` row. -/
def expenseTotalRowIdx (prop : PropertyData) : Nat :=
  6 + (incomeCatsOf prop).length + (expenseCatsOf prop).length

/-- The row index of the `NET RENTAL INCOME` row. -/
def netRowIdx (prop : PropertyData) : Nat :=
  8 + (incomeCatsOf prop).length + (expenseCatsOf prop).length

/-- A property with no income categories at all (the income block is
empty, so the formula-overlay guard `incomeEnd >= incomeStart` fails). -/
def emptyIncomeProp : PropertyData :=
  ⟨lit "1 Main St", [], [], [(lit "tax", ⟨5, lit "t.pdf"⟩)], [], [], []⟩

/-- A property exercising both blocks: categories present in only one of
the two years default the missing amount to 0. -/
def sampleProp : PropertyData :=
  ⟨lit "1 Main St",
   [(lit "Rent", ⟨1200, lit "bank.csv"⟩)],
   [(lit "Rent", 1100), (lit "Laundry", 50)],
   [(lit "Repairs", ⟨300, lit "invoice.pdf"⟩)],
   [(lit "Insurance", 90)],
   [lit "bank.csv"],
   []⟩

/-! ### Hyperlink path-rewrite lemmas -/

theorem startsL_cons (x : Char) (xs : Str) (p : Char) (ps : Str) :
    startsL (x :: xs) (p :: ps) = (p == x && List.isPrefixOf ps xs) := rfl

theorem lit_sep : lit " > " = ' ' :: '>' :: ' ' :: [] := rfl

theorem replaceSep_pattern (rest : Str) :
    replaceSep (' ' :: '>' :: ' ' :: rest) = lit "_attachments/" ++ replaceSep rest := by
  simp [replaceSep]

theorem replaceSep_cons_neg {c : Char} {rest : Str}
    (h : startsL (c :: rest) (lit " > ") = false) :
    replaceSep (c :: rest) = c :: replaceSep rest := by
  rw [replaceSep.eq_def]
  split
  · rename_i heq
    exact absurd heq (by simp)
  · rename_i rest1 heq
    rw [heq] at h
    simp [startsL, lit_sep, List.isPrefixOf] at h
  · rename_i c' rest' hne heq
    cases heq
    rfl

theorem containsSep_attachments (X : Str) :
    containsSep (lit "_attachments/" ++ X) = containsSep X := by
  simp [containsSep, startsL, lit, List.isPrefixOf]

theorem startsSpace_replaceSep {r : Str}
    (h : startsL (replaceSep r) (lit " ") = true) :
    startsL r (lit " ") = true := by
  rcases r with _ | ⟨c, rest⟩
  · exact absurd h (by decide)
  · by_cases hp : startsL (c :: rest) (lit " > ") = true
    · have hc : c = ' ' := by
        rcases rest with _ | ⟨c2, rest2⟩
      -- startsL (c :: rest) " > " with rest too short is false
        · exact absurd hp (by simp [startsL, lit_sep, List.isPrefixOf])
        · simp [startsL, lit_sep, List.isPrefixOf] at hp
          exact hp.1.symm
      subst hc
      simp [startsL, lit, List.isPrefixOf]
    · rw [replaceSep_cons_neg (by simpa using hp)] at h
      simp [startsL, lit, List.isPrefixOf] at h ⊢
      exact h

theorem startsGtSpace_replaceSep {r : Str}
    (h : startsL (replaceSep r) (lit "> ") = true) :
    startsL r (lit "> ") = true := by
  rcases r with _ | ⟨c, rest⟩
  · exact absurd h (by decide)
  · by_cases hp : startsL (c :: rest) (lit " > ") = true
    · exfalso
      rcases rest with _ | ⟨c2, rest2⟩
      · exact absurd hp (by simp [startsL, lit_sep, List.isPrefixOf])
      · rcases rest2 with _ | ⟨c3, rest3⟩
        · exact absurd hp (by simp [startsL, lit_sep, List.isPrefixOf])
        · simp only [startsL, lit_sep, List.isPrefixOf, Bool.and_eq_true, beq_iff_eq] at hp
          obtain ⟨h1, h2, h3, -⟩ := hp
          subst h1
          subst h2
          subst h3
          rw [replaceSep_pattern] at h
          exact absurd h (by simp [startsL, lit, List.isPrefixOf])
    · rw [replaceSep_cons_neg (by simpa using hp)] at h
      simp only [startsL, lit, List.isPrefixOf] at h ⊢
      simp only [show ("> ".data) = '>' :: ' ' :: [] from rfl, List.isPrefixOf,
        Bool.and_eq_true, beq_iff_eq] at h ⊢
      obtain ⟨hgt, hsp⟩ := h
      refine ⟨hgt, ?_⟩
      have := startsSpace_replaceSep (r := rest) (by
        simp [startsL, lit, List.isPrefixOf]
        rcases hrs : replaceSep rest with _ | ⟨d, ds⟩
        · rw [hrs] at hsp
          simp [List.isPrefixOf] at hsp
        · rw [hrs] at hsp
          simp [List.isPrefixOf] at hsp ⊢
          exact hsp)
      rcases rest with _ | ⟨e, es⟩
      · simp [startsL, lit, List.isPrefixOf] at this
      · simp [startsL, lit, List.isPrefixOf] at this
        simp [List.isPrefixOf]
        exact this

theorem containsSep_replaceSep (l : Str) : containsSep (replaceSep l) = false := by
  induction l using replaceSep.induct with
  | case1 => rfl
  | case2 rest ih =>
    rw [replaceSep_pattern, containsSep_attachments]
    exact ih
  | case3 c rest hne ih =>
    have hns : startsL (c :: rest) (lit " > ") = false := by
      cases hq : startsL (c :: rest) (lit " > ")
      · rfl
      · exfalso
        rcases rest with _ | ⟨c2, rest2⟩
        · exact absurd hq (by simp [startsL, lit_sep, List.isPrefixOf])
        · rcases rest2 with _ | ⟨c3, rest3⟩
          · exact absurd hq (by simp [startsL, lit_sep, List.isPrefixOf])
          · simp only [startsL, lit_sep, List.isPrefixOf, Bool.and_eq_true, beq_iff_eq] at hq
            obtain ⟨h1, h2, h3, -⟩ := hq
            exact hne rest3 h1.symm (by rw [← h2, ← h3])
    rw [replaceSep_cons_neg hns]
    show (startsL (c :: replaceSep rest) (lit " > ") || containsSep (replaceSep rest)) = false
    rw [ih]
    simp only [Bool.or_false]
    cases hq : startsL (c :: replaceSep rest) (lit " > ")
    · rfl
    · exfalso
      rw [lit_sep] at hq
      rw [startsL_cons] at hq
      simp only [Bool.and_eq_true, beq_iff_eq] at hq
      obtain ⟨hc, hpre⟩ := hq
      have hgt : startsL (replaceSep rest) (lit "> ") = true := by
        simp only [startsL, show ("> ".data) = '>' :: ' ' :: [] from rfl]
        exact hpre
      have := startsGtSpace_replaceSep hgt
      rcases rest with _ | ⟨e, es⟩
      · exact absurd this (by decide)
      · simp only [startsL, show ("> ".data) = '>' :: ' ' :: [] from rfl,
          List.isPrefixOf, Bool.and_eq_true, beq_iff_eq] at this
        obtain ⟨he, hes⟩ := this
        rcases es with _ | ⟨e2, es2⟩
        · simp [List.isPrefixOf] at hes
        · simp only [List.isPrefixOf, Bool.and_eq_true, beq_iff_eq] at hes
          exact hne es2 hc.symm (by rw [he, hes.1])

theorem replaceSep_of_not_contains {l : Str} (h : containsSep l = false) :
    replaceSep l = l := by
  induction l using replaceSep.induct with
  | case1 => rfl
  | case2 rest ih =>
    exfalso
    have : startsL (' ' :: '>' :: ' ' :: rest) (lit " > ") = true := by
      simp [startsL, lit_sep, List.isPrefixOf]
    rw [show containsSep (' ' :: '>' :: ' ' :: rest) =
        (startsL (' ' :: '>' :: ' ' :: rest) (lit " > ")
          || containsSep ('>' :: ' ' :: rest)) from rfl, this] at h
    simp at h
  | case3 c rest hne ih =>
    rw [show containsSep (c :: rest) =
        (startsL (c :: rest) (lit " > ") || containsSep rest) from rfl] at h
    rcases Bool.or_eq_false_iff.mp h with ⟨h1, h2⟩
    rw [replaceSep_cons_neg h1, ih h2]

theorem bslash_not_mem_replaceBackslash (l : Str) : '\\' ∉ replaceBackslash l := by
  intro hmem
  obtain ⟨c, -, hc⟩ := List.mem_map.mp hmem
  by_cases h : c = '\\'
  · rw [bslash2slash, if_pos h] at hc
    exact absurd hc (by decide)
  · rw [bslash2slash, if_neg h] at hc
    exact h hc

theorem startsSep_map_bslash {l : Str}
    (h : startsL (replaceBackslash l) (lit " > ") = true) :
    startsL l (lit " > ") = true := by
  rcases l with _ | ⟨c1, _ | ⟨c2, _ | ⟨c3, t⟩⟩⟩
  · exact absurd h (by decide)
  · exact absurd h (by simp [replaceBackslash, startsL, lit_sep, List.isPrefixOf])
  · exact absurd h (by simp [replaceBackslash, startsL, lit_sep, List.isPrefixOf])
  · simp only [replaceBackslash, List.map_cons, startsL, lit_sep,
      List.isPrefixOf, Bool.and_eq_true, beq_iff_eq] at h ⊢
    obtain ⟨h1, h2, h3, -⟩ := h
    have e1 : c1 = ' ' := by
      by_cases hc : c1 = '\\'
      · rw [bslash2slash, if_pos hc] at h1
        exact absurd h1 (by decide)
      · rw [bslash2slash, if_neg hc] at h1
        exact h1.symm
    have e2 : c2 = '>' := by
      by_cases hc : c2 = '\\'
      · rw [bslash2slash, if_pos hc] at h2
        exact absurd h2 (by decide)
      · rw [bslash2slash, if_neg hc] at h2
        exact h2.symm
    have e3 : c3 = ' ' := by
      by_cases hc : c3 = '\\'
      · rw [bslash2slash, if_pos hc] at h3
        exact absurd h3 (by decide)
      · rw [bslash2slash, if_neg hc] at h3
        exact h3.symm
    exact ⟨e1.symm, e2.symm, e3.symm, trivial⟩

theorem containsSep_replaceBackslash {l : Str} (h : containsSep l = false) :
    containsSep (replaceBackslash l) = false := by
  induction l with
  | nil => rfl
  | cons c rest ih =>
    rw [show containsSep (c :: rest) =
        (startsL (c :: rest) (lit " > ") || containsSep rest) from rfl] at h
    rcases Bool.or_eq_false_iff.mp h with ⟨h1, h2⟩
    show (startsL (bslash2slash c :: replaceBackslash rest) (lit " > ")
      || containsSep (replaceBackslash rest)) = false
    rw [ih h2]
    simp only [Bool.or_false]
    cases hq : startsL (bslash2slash c :: replaceBackslash rest) (lit " > ")
    · rfl
    · have := startsSep_map_bslash (l := c :: rest) (by
        simpa [replaceBackslash] using hq)
      rw [this] at h1
      exact h1

theorem replaceBackslash_idem (l : Str) :
    replaceBackslash (replaceBackslash l) = replaceBackslash l := by
  induction l with
  | nil => rfl
  | cons c rest ih =>
    show bslash2slash (bslash2slash c) :: replaceBackslash (replaceBackslash rest) =
      bslash2slash c :: replaceBackslash rest
    rw [ih]
    by_cases h : c = '\\'
    · subst h
      have h1 : bslash2slash '\\' = '/' := by decide
      have h2 : bslash2slash '/' = '/' := by decide
      rw [h1, h2]
    · have h1 : bslash2slash c = c := by
        unfold bslash2slash
        rw [if_neg h]
      rw [h1, h1]

theorem sanitizePath_idem (s : Str) :
    sanitizePath (sanitizePath s) = sanitizePath s := by
  unfold sanitizePath
  rw [replaceSep_of_not_contains (containsSep_replaceBackslash (containsSep_replaceSep s))]
  exact replaceBackslash_idem _

/-- A property whose only income category is named `TOTAL RENT` — a data
row the hyperlink pass skips. -/
def exTotalPrefixed : PropertyData :=
  ⟨lit "A", [(lit "TOTAL RENT", ⟨7, lit "r.pdf"⟩)], [], [], [], [], []⟩

/-- C9 counterexample: the income data row `TOTAL RENT` (row index 3)
carries the non-empty source `r.pdf`, yet its source cell receives NO
hyperlink — the pass skips every row whose first cell starts with
`"TOTAL"`, data rows included. -/
theorem hyperlink_total_prefix_counterexample :
    (buildRows exTotalPrefixed (lit "P") (lit "C")).get? 3 =
      some [.s (lit "TOTAL RENT"), .n 0, .n 7, .n 7, .s (lit "r.pdf")]
    ∧ buildSheet exTotalPrefixed (lit "P") (lit "C") 4 3 =
      some ⟨some (.s (lit "r.pdf")), Option.none, Option.none⟩ := by
  constructor <;> decide

/-- C9 (amended): the hyperlink path rewrite replaces the breadcrumb
separator by `"_attachments/"` and every backslash by a forward slash
(neither survives in its output), maps the example breadcrumb as
specified, and is idempotent; and a data row with a non-empty source-file
value receives the hyperlink `Source_Documents/<rewritten path>` provided
its label is not `INCOME`/`EXPENSES` and does not start with `TOTAL`
(rows with such labels — including data rows — are skipped). -/
theorem hyperlink_rewrite (rows : List Row) (ws : Sheet) (r : Nat) (row : Row)
    (label src : Str) (cell : Cell)
    (hrow : rows.get? r = some row) (hr : 0 < r)
    (h0 : firstCell row = some (.s label))
    (h4 : row.get? 4 = some (.s src)) (hsrc : src ≠ [])
    (hl1 : label ≠ lit "INCOME") (hl2 : label ≠ lit "EXPENSES")
    (hl3 : startsL label (lit "TOTAL") = false)
    (hcell : ws 4 r = some cell) :
    sanitizePath (lit "Email.msg > invoice.pdf") = lit "Email.msg_attachments/invoice.pdf"
    ∧ (∀ s : Str, '\\' ∉ sanitizePath s)
    ∧ (∀ s : Str, containsSep (sanitizePath s) = false)
    ∧ (∀ s : Str, sanitizePath (sanitizePath s) = sanitizePath s)
    ∧ applyHyperlinks rows ws 4 r =
        some { cell with l := some (lit "Source_Documents/" ++ sanitizePath src) } := by
  refine ⟨by decide, fun s => bslash_not_mem_replaceBackslash _,
    fun s => containsSep_replaceBackslash (containsSep_replaceSep s),
    sanitizePath_idem, ?_⟩
  have hcond : hyperlinkCond row r = true := by
    unfold hyperlinkCond
    rw [h4, h0]
    simp [cellTruthy, hsrc, hr, hl1, hl2, hl3]
  have htgt : hyperlinkTarget row r =
      some (lit "Source_Documents/" ++ sanitizePath src) := by
    unfold hyperlinkTarget
    rw [if_pos hcond, h4]
  show (match ws 4 r with
    | some cell =>
      if 4 = 4 then
        match rows.get? r with
        | some row =>
          match hyperlinkTarget row r with
          | some t => some { cell with l := some t }
          | Option.none => some cell
        | Option.none => some cell
      else some cell
    | Option.none => Option.none) = _
  rw [hcell, hrow]
  simp only [htgt, if_true]

/-- A property used by the hyperlink witness. -/
def okHyper : PropertyData :=
  ⟨lit "A", [(lit "rent", ⟨7, lit "m.msg > r.pdf"⟩)], [],
   [(lit "tax", ⟨2, lit "t.pdf"⟩)], [], [], []⟩

/-- Witness for the amended C9: the `rent` data row of a concrete property
receives the rewritten hyperlink. -/
theorem hyperlink_rewrite_witness :
    applyHyperlinks (buildRows okHyper (lit "P") (lit "C"))
        (aoaToSheet (buildRows okHyper (lit "P") (lit "C"))) 4 3 =
      some ⟨some (.s (lit "m.msg > r.pdf")), Option.none,
        some (lit "Source_Documents/" ++ sanitizePath (lit "m.msg > r.pdf"))⟩ :=
  (hyperlink_rewrite (buildRows okHyper (lit "P") (lit "C"))
    (aoaToSheet (buildRows okHyper (lit "P") (lit "C"))) 3
    [.s (lit "rent"), .n 0, .n 7, .n 7, .s (lit "m.msg > r.pdf")]
    (lit "rent") (lit "m.msg > r.pdf")
    ⟨some (.s (lit "m.msg > r.pdf")), Option.none, Option.none⟩
    (by decide) (by decide) (by decide) (by decide) (by decide) (by decide)
    (by decide) (by decide) (by decide)).2.2.2.2

/-! ### Section-scan lemmas -/

/-- The five labels the section scan reacts to. -/
def scanSentinels : List Str :=
  [lit "INCOME", lit "TOTAL INCOME", lit "EXPENSES", lit "TOTAL EXPENSES",
   lit "NET RENTAL INCOME"]

theorem scanStep_of_notSentinel {row : Row} {v : Str}
    (h : firstCell row = some (.s v)) (hs : v ∉ scanSentinels)
    (st : ScanState) (i : Nat) : scanStep st i row = st := by
  unfold scanStep
  rw [h]
  dsimp only
  rw [if_neg (fun hEq => hs (by rw [hEq]; decide))]
  rw [if_neg (fun hEq => hs (by rw [hEq]; decide))]
  rw [if_neg (fun hEq => hs (by rw [hEq]; decide))]
  rw [if_neg (fun hEq => hs (by rw [hEq]; decide))]
  rw [if_neg (fun hEq => hs (by rw [hEq]; decide))]

theorem scanStep_income {row : Row} (h : firstCell row = some (.s (lit "INCOME")))
    (st : ScanState) (i : Nat) :
    scanStep st i row = { st with incomeStart := (i : Int) + 1 } := by
  unfold scanStep
  rw [h]
  dsimp only
  rw [if_pos rfl]

theorem scanStep_total_income {row : Row}
    (h : firstCell row = some (.s (lit "TOTAL INCOME"))) (st : ScanState) (i : Nat) :
    scanStep st i row =
      { st with incomeEnd := (i : Int) - 1, totalIncomeRow := (i : Int) } := by
  unfold scanStep
  rw [h]
  dsimp only
  rw [if_neg (by decide), if_pos rfl]

theorem scanStep_expenses {row : Row} (h : firstCell row = some (.s (lit "EXPENSES")))
    (st : ScanState) (i : Nat) :
    scanStep st i row = { st with expenseStart := (i : Int) + 1 } := by
  unfold scanStep
  rw [h]
  dsimp only
  rw [if_neg (by decide), if_neg (by decide), if_pos rfl]

theorem scanStep_total_expenses {row : Row}
    (h : firstCell row = some (.s (lit "TOTAL EXPENSES"))) (st : ScanState) (i : Nat) :
    scanStep st i row =
      { st with expenseEnd := (i : Int) - 1, totalExpenseRow := (i : Int) } := by
  unfold scanStep
  rw [h]
  dsimp only
  rw [if_neg (by decide), if_neg (by decide), if_neg (by decide), if_pos rfl]

theorem scanStep_net {row : Row}
    (h : firstCell row = some (.s (lit "NET RENTAL INCOME"))) (st : ScanState) (i : Nat) :
    scanStep st i row = { st with netIncomeRow := (i : Int) } := by
  unfold scanStep
  rw [h]
  dsimp only
  rw [if_neg (by decide), if_neg (by decide), if_neg (by decide),
    if_neg (by decide), if_pos rfl]

theorem scanRows_cons (st : ScanState) (i : Nat) (row : Row) (rest : List Row) :
    scanRows st i (row :: rest) = scanRows (scanStep st i row) (i + 1) rest := rfl

theorem scanRows_append (st : ScanState) (i : Nat) (l1 l2 : List Row) :
    scanRows st i (l1 ++ l2) = scanRows (scanRows st i l1) (i + l1.length) l2 := by
  induction l1 generalizing st i with
  | nil => simp [scanRows]
  | cons row rest ih =>
    rw [List.cons_append]
    show scanRows (scanStep st i row) (i + 1) (rest ++ l2) = _
    rw [ih]
    congr 1
    simp
    omega

theorem scanRows_neutral {l : List Row}
    (h : ∀ row ∈ l, ∃ v, firstCell row = some (.s v) ∧ v ∉ scanSentinels) :
    ∀ (st : ScanState) (i : Nat), scanRows st i l = st := by
  induction l with
  | nil => intro st i; rfl
  | cons row rest ih =>
    intro st i
    obtain ⟨v, hv, hvs⟩ := h row (List.mem_cons_self _ _)
    show scanRows (scanStep st i row) (i + 1) rest = st
    rw [scanStep_of_notSentinel hv hvs]
    exact ih (fun r hr => h r (List.mem_cons_of_mem _ hr)) st (i + 1)

theorem catRows_neutral {cats : List Str} {pri : List (Str × Int)}
    {cur : List (Str × SourceMapping)} (hc : ∀ c ∈ cats, c ∉ scanSentinels) :
    ∀ row ∈ cats.map (catRow pri cur),
      ∃ v, firstCell row = some (.s v) ∧ v ∉ scanSentinels := by
  intro row hrow
  obtain ⟨c, hcmem, rfl⟩ := List.mem_map.mp hrow
  exact ⟨c, rfl, hc c hcmem⟩

theorem scan_buildRows (prop : PropertyData) (pl cl : Str)
    (hInc : ∀ c ∈ incomeCatsOf prop, c ∉ scanSentinels)
    (hExp : ∀ c ∈ expenseCatsOf prop, c ∉ scanSentinels)
    (hNotes : prop.notes ∉ scanSentinels)
    (hFiles : ∀ f ∈ prop.source_files_read, f ∉ scanSentinels) :
    scanRows initScan 0 (buildRows prop pl cl) =
      expectedScan (incomeCatsOf prop).length (expenseCatsOf prop).length := by
  simp only [buildRows]
  rw [scanRows_append, scanRows_append, scanRows_append, scanRows_append,
    scanRows_append, scanRows_append, scanRows_append]
  -- the header segment: PROPERTY SUMMARY, blank, INCOME
  rw [show ∀ st : ScanState, ∀ a : Str, scanRows st 0
      [[.s (lit "PROPERTY SUMMARY"), .s a], [.s []],
       [.s (lit "INCOME"), .s pl, .s cl, .s (lit "Variance"),
        .s (lit "Source File (Link)")]] =
      { st with incomeStart := (2 : Int) + 1 } from fun st a => by
    rw [scanRows_cons, scanStep_of_notSentinel
      (show firstCell [CellV.s (lit "PROPERTY SUMMARY"), CellV.s a]
        = some (CellV.s (lit "PROPERTY SUMMARY")) from rfl) (by decide)]
    rw [scanRows_cons, scanStep_of_notSentinel
      (show firstCell [CellV.s []] = some (CellV.s []) from rfl) (by decide)]
    rw [scanRows_cons, scanStep_income
      (show firstCell [CellV.s (lit "INCOME"), CellV.s pl, CellV.s cl,
        CellV.s (lit "Variance"), CellV.s (lit "Source File (Link)")]
        = some (CellV.s (lit "INCOME")) from rfl)]
    rfl]
  -- the income category rows are neutral
  rw [scanRows_neutral (catRows_neutral hInc)]
  -- TOTAL INCOME, blank, EXPENSES
  rw [show ∀ st : ScanState, ∀ i : Nat, ∀ a b c : Int, scanRows st i
      [[.s (lit "TOTAL INCOME"), .n a, .n b, .n c], [.s []],
       [.s (lit "EXPENSES"), .s pl, .s cl, .s (lit "Variance"),
        .s (lit "Source File (Link)")]] =
      { st with incomeEnd := (i : Int) - 1, totalIncomeRow := (i : Int),
                expenseStart := ((i + 2 : Nat) : Int) + 1 } from fun st i a b c => by
    rw [scanRows_cons, scanStep_total_income
      (show firstCell [CellV.s (lit "TOTAL INCOME"), CellV.n a, CellV.n b, CellV.n c]
        = some (CellV.s (lit "TOTAL INCOME")) from rfl)]
    rw [scanRows_cons, scanStep_of_notSentinel
      (show firstCell [CellV.s []] = some (CellV.s []) from rfl) (by decide)]
    rw [scanRows_cons, scanStep_expenses
      (show firstCell [CellV.s (lit "EXPENSES"), CellV.s pl, CellV.s cl,
        CellV.s (lit "Variance"), CellV.s (lit "Source File (Link)")]
        = some (CellV.s (lit "EXPENSES")) from rfl)]
    ext <;> simp [scanRows] <;> try omega]
  -- the expense category rows are neutral
  rw [scanRows_neutral (catRows_neutral hExp)]
  -- TOTAL EXPENSES, blank, NET RENTAL INCOME
  rw [show ∀ st : ScanState, ∀ i : Nat, ∀ a b c d e f : Int, scanRows st i
      [[.s (lit "TOTAL EXPENSES"), .n a, .n b, .n c], [.s []],
       [.s (lit "NET RENTAL INCOME"), .n d, .n e, .n f]] =
      { st with expenseEnd := (i : Int) - 1, totalExpenseRow := (i : Int),
                netIncomeRow := ((i + 2 : Nat) : Int) } from fun st i a b c d e f => by
    rw [scanRows_cons, scanStep_total_expenses
      (show firstCell [CellV.s (lit "TOTAL EXPENSES"), CellV.n a, CellV.n b, CellV.n c]
        = some (CellV.s (lit "TOTAL EXPENSES")) from rfl)]
    rw [scanRows_cons, scanStep_of_notSentinel
      (show firstCell [CellV.s []] = some (CellV.s []) from rfl) (by decide)]
    rw [scanRows_cons, scanStep_net
      (show firstCell [CellV.s (lit "NET RENTAL INCOME"), CellV.n d, CellV.n e, CellV.n f]
        = some (CellV.s (lit "NET RENTAL INCOME")) from rfl)]
    ext <;> simp [scanRows] <;> try omega]
  -- the notes block (if any) is neutral
  rw [show ∀ st : ScanState, ∀ i : Nat, scanRows st i
      (if prop.notes = [] then []
       else [[.s []], [.s (lit "NOTES / MISSING INFO")], [.s prop.notes]]) = st
    from fun st i => by
    by_cases hn : prop.notes = []
    · rw [if_pos hn]
      rfl
    · rw [if_neg hn]
      exact scanRows_neutral (by
        intro row hrow
        simp only [List.mem_cons, List.not_mem_nil, or_false] at hrow
        rcases hrow with rfl | rfl | rfl
        · exact ⟨[], rfl, by decide⟩
        · exact ⟨lit "NOTES / MISSING INFO", rfl, by decide⟩
        · exact ⟨prop.notes, rfl, hNotes⟩) st i]
  -- blank + FILES header
  rw [show ∀ st : ScanState, ∀ i : Nat, scanRows st i
      [[.s []], [.s (lit "FILES PROCESSED FOR THIS PROPERTY")]] = st
    from fun st i => by
    rw [scanRows_cons, scanStep_of_notSentinel
      (show firstCell [CellV.s []] = some (CellV.s []) from rfl) (by decide)]
    rw [scanRows_cons, scanStep_of_notSentinel
      (show firstCell [CellV.s (lit "FILES PROCESSED FOR THIS PROPERTY")]
        = some (CellV.s (lit "FILES PROCESSED FOR THIS PROPERTY")) from rfl)
      (by decide)]
    rfl]
  -- the file listing is neutral
  rw [scanRows_neutral (by
    intro row hrow
    obtain ⟨f, hf, rfl⟩ := List.mem_map.mp hrow
    exact ⟨f, rfl, hFiles f hf⟩)]
  ext <;> simp [expectedScan, initScan] <;> omega

/-! ### Category-union and block-layout lemmas -/

theorem mergedCats_sorted (cur pri : List Str) : (mergedCats cur pri).Sorted strLeR :=
  List.sorted_insertionSort strLeR _

theorem mergedCats_nodup (cur pri : List Str) : (mergedCats cur pri).Nodup :=
  (List.perm_insertionSort strLeR _).nodup_iff.mpr (List.nodup_dedup _)

theorem mergedCats_mem (cur pri : List Str) (k : Str) :
    k ∈ mergedCats cur pri ↔ (k ∈ cur ∨ k ∈ pri) := by
  unfold mergedCats
  rw [(List.perm_insertionSort strLeR _).mem_iff, List.mem_dedup, List.mem_append]

theorem lookupRat_absent {m : List (Str × Int)} {k : Str}
    (h : k ∉ m.map Prod.fst) : lookupRat m k = 0 := by
  unfold lookupRat
  rw [List.find?_eq_none.mpr
    (fun p hp hpk => h (List.mem_map.mpr ⟨p, hp, by simpa using hpk⟩))]

theorem currentAmt_absent {m : List (Str × SourceMapping)} {k : Str}
    (h : k ∉ m.map Prod.fst) : currentAmt m k = 0 := by
  unfold currentAmt lookupSM
  rw [List.find?_eq_none.mpr
    (fun p hp hpk => h (List.mem_map.mpr ⟨p, hp, by simpa using hpk⟩))]
  rfl

theorem slice_at1 {α : Type} (p1 mid post : List α) (k : Nat) (hk : p1.length = k) :
    ((p1 ++ (mid ++ post)).drop k).take mid.length = mid := by
  subst hk
  rw [List.drop_left, List.take_left]

theorem slice_at3 {α : Type} (p1 p2 p3 mid post : List α) (k : Nat)
    (hk : p1.length + p2.length + p3.length = k) :
    ((p1 ++ (p2 ++ (p3 ++ (mid ++ post)))).drop k).take mid.length = mid := by
  subst hk
  rw [← List.append_assoc, ← List.append_assoc,
    show p1.length + p2.length + p3.length = (p1 ++ p2 ++ p3).length from by
      simp
      try omega,
    List.drop_left, List.take_left]

theorem buildRows_income_slice (prop : PropertyData) (pl cl : Str) :
    ((buildRows prop pl cl).drop 3).take (incomeCatsOf prop).length
      = (incomeCatsOf prop).map (catRow prop.income_prior prop.income) := by
  simp only [buildRows, List.append_assoc]
  rw [← List.length_map (incomeCatsOf prop) (catRow prop.income_prior prop.income)]
  exact slice_at1 _ _ _ 3 rfl

theorem buildRows_expense_slice (prop : PropertyData) (pl cl : Str) :
    ((buildRows prop pl cl).drop (6 + (incomeCatsOf prop).length)).take
        (expenseCatsOf prop).length
      = (expenseCatsOf prop).map (catRow prop.expenses_prior prop.expenses) := by
  simp only [buildRows, List.append_assoc]
  rw [← List.length_map (expenseCatsOf prop) (catRow prop.expenses_prior prop.expenses)]
  exact slice_at3 _ _ _ _ _ _
    (by simp only [List.length_cons, List.length_nil, List.length_map]; omega)

theorem buildRows_get_income (prop : PropertyData) (pl cl : Str) {j : Nat} {cat : Str}
    (hj : (incomeCatsOf prop).get? j = some cat) :
    (buildRows prop pl cl).get? (3 + j)
      = some (catRow prop.income_prior prop.income cat) := by
  have hlt : j < (incomeCatsOf prop).length := by
    by_contra hge
    rw [List.get?_eq_none.mpr (by omega)] at hj
    exact Option.noConfusion hj
  have h1 := congrArg (fun l => l.get? j) (buildRows_income_slice prop pl cl)
  simpa [List.get?_eq_getElem?, List.getElem?_take_of_lt hlt, List.getElem?_drop,
    List.getElem?_map, List.get?_eq_getElem? _ j ▸ hj] using h1

theorem buildRows_get_expense (prop : PropertyData) (pl cl : Str) {j : Nat} {cat : Str}
    (hj : (expenseCatsOf prop).get? j = some cat) :
    (buildRows prop pl cl).get? (6 + (incomeCatsOf prop).length + j)
      = some (catRow prop.expenses_prior prop.expenses cat) := by
  have hlt : j < (expenseCatsOf prop).length := by
    by_contra hge
    rw [List.get?_eq_none.mpr (by omega)] at hj
    exact Option.noConfusion hj
  have h1 := congrArg (fun l => l.get? j) (buildRows_expense_slice prop pl cl)
  simpa [List.get?_eq_getElem?, List.getElem?_take_of_lt hlt, List.getElem?_drop,
    List.getElem?_map, List.get?_eq_getElem? _ j ▸ hj] using h1

/-! ### Overlay passthrough lemmas -/

theorem applyHyperlinks_ne4 (rows : List Row) (ws : Sheet) {c : Nat} (r : Nat)
    (hc : c ≠ 4) : applyHyperlinks rows ws c r = ws c r := by
  unfold applyHyperlinks
  cases hw : ws c r with
  | none => rfl
  | some cell => simp [if_neg hc]

theorem applyVariance_ne3 (rows : List Row) (ws : Sheet) {c : Nat} (r : Nat)
    (hc : c ≠ 3) : applyVariance rows ws c r = ws c r := by
  unfold applyVariance
  cases hw : ws c r with
  | none => rfl
  | some cell => simp [hc]

theorem applyTotals_data (st : ScanState) (ws : Sheet) (c r : Nat)
    (hI : ¬(st.incomeStart ≠ -1 ∧ st.incomeEnd ≥ st.incomeStart
        ∧ (r : Int) = st.totalIncomeRow))
    (hE : ¬(st.expenseStart ≠ -1 ∧ st.expenseEnd ≥ st.expenseStart
        ∧ (r : Int) = st.totalExpenseRow))
    (hN : ¬(st.netIncomeRow ≠ -1 ∧ st.totalIncomeRow ≠ -1 ∧ st.totalExpenseRow ≠ -1
        ∧ (r : Int) = st.netIncomeRow)) :
    applyTotals st ws c r = ws c r := by
  simp only [applyTotals, if_neg hI, if_neg hE, if_neg hN]

/-! ### Worksheet cell lemmas -/

theorem buildSheet_scan (prop : PropertyData) (pl cl : Str)
    (hInc : ∀ c ∈ incomeCatsOf prop, c ∉ scanSentinels)
    (hExp : ∀ c ∈ expenseCatsOf prop, c ∉ scanSentinels)
    (hNotes : prop.notes ∉ scanSentinels)
    (hFiles : ∀ f ∈ prop.source_files_read, f ∉ scanSentinels) :
    buildSheet prop pl cl
      = applyHyperlinks (buildRows prop pl cl)
          (applyTotals
            (expectedScan (incomeCatsOf prop).length (expenseCatsOf prop).length)
            (applyVariance (buildRows prop pl cl) (aoaToSheet (buildRows prop pl cl)))) := by
  show applyHyperlinks (buildRows prop pl cl)
      (applyTotals (scanRows initScan 0 (buildRows prop pl cl))
        (applyVariance (buildRows prop pl cl) (aoaToSheet (buildRows prop pl cl)))) = _
  rw [scan_buildRows prop pl cl hInc hExp hNotes hFiles]

theorem buildSheet_income_data (prop : PropertyData) (pl cl : Str)
    (hInc : ∀ c ∈ incomeCatsOf prop, c ∉ scanSentinels)
    (hExp : ∀ c ∈ expenseCatsOf prop, c ∉ scanSentinels)
    (hNotes : prop.notes ∉ scanSentinels)
    (hFiles : ∀ f ∈ prop.source_files_read, f ∉ scanSentinels)
    {j : Nat} {cat : Str} (hj : (incomeCatsOf prop).get? j = some cat)
    {c : Nat} {v : CellV} (hc : c = 1 ∨ c = 2)
    (hv : (catRow prop.income_prior prop.income cat).get? c = some v) :
    buildSheet prop pl cl c (3 + j) = some ⟨some v, Option.none, Option.none⟩ := by
  have hlt : j < (incomeCatsOf prop).length := by
    by_contra hge
    rw [List.get?_eq_getElem?, List.getElem?_eq_none (by omega)] at hj
    exact Option.noConfusion hj
  have hc4 : c ≠ 4 := by rcases hc with rfl | rfl <;> decide
  have hc3 : c ≠ 3 := by rcases hc with rfl | rfl <;> decide
  rw [buildSheet_scan prop pl cl hInc hExp hNotes hFiles,
    applyHyperlinks_ne4 _ _ _ hc4,
    applyTotals_data _ _ _ _ (by dsimp only [expectedScan]; omega)
      (by dsimp only [expectedScan]; omega) (by dsimp only [expectedScan]; omega),
    applyVariance_ne3 _ _ _ hc3]
  simp only [aoaToSheet, buildRows_get_income prop pl cl hj, hv]

theorem buildSheet_expense_data (prop : PropertyData) (pl cl : Str)
    (hInc : ∀ c ∈ incomeCatsOf prop, c ∉ scanSentinels)
    (hExp : ∀ c ∈ expenseCatsOf prop, c ∉ scanSentinels)
    (hNotes : prop.notes ∉ scanSentinels)
    (hFiles : ∀ f ∈ prop.source_files_read, f ∉ scanSentinels)
    {j : Nat} {cat : Str} (hj : (expenseCatsOf prop).get? j = some cat)
    {c : Nat} {v : CellV} (hc : c = 1 ∨ c = 2)
    (hv : (catRow prop.expenses_prior prop.expenses cat).get? c = some v) :
    buildSheet prop pl cl c (6 + (incomeCatsOf prop).length + j)
      = some ⟨some v, Option.none, Option.none⟩ := by
  have hlt : j < (expenseCatsOf prop).length := by
    by_contra hge
    rw [List.get?_eq_getElem?, List.getElem?_eq_none (by omega)] at hj
    exact Option.noConfusion hj
  have hc4 : c ≠ 4 := by rcases hc with rfl | rfl <;> decide
  have hc3 : c ≠ 3 := by rcases hc with rfl | rfl <;> decide
  rw [buildSheet_scan prop pl cl hInc hExp hNotes hFiles,
    applyHyperlinks_ne4 _ _ _ hc4,
    applyTotals_data _ _ _ _ (by dsimp only [expectedScan]; omega)
      (by dsimp only [expectedScan]; omega) (by dsimp only [expectedScan]; omega),
    applyVariance_ne3 _ _ _ hc3]
  simp only [aoaToSheet, buildRows_get_expense prop pl cl hj, hv]

theorem buildSheet_totalIncome_cells (prop : PropertyData) (pl cl : Str)
    (hInc : ∀ c ∈ incomeCatsOf prop, c ∉ scanSentinels)
    (hExp : ∀ c ∈ expenseCatsOf prop, c ∉ scanSentinels)
    (hNotes : prop.notes ∉ scanSentinels)
    (hFiles : ∀ f ∈ prop.source_files_read, f ∉ scanSentinels)
    (hn : incomeCatsOf prop ≠ []) :
    buildSheet prop pl cl 1 (incomeTotalRowIdx prop)
        = some ⟨Option.none,
            some (.sum 1 3 (2 + (incomeCatsOf prop).length)), Option.none⟩
      ∧ buildSheet prop pl cl 2 (incomeTotalRowIdx prop)
        = some ⟨Option.none,
            some (.sum 2 3 (2 + (incomeCatsOf prop).length)), Option.none⟩
      ∧ buildSheet prop pl cl 3 (incomeTotalRowIdx prop)
        = some ⟨Option.none,
            some (.sub 2 (incomeTotalRowIdx prop) 1 (incomeTotalRowIdx prop)),
            Option.none⟩ := by
  have hn1 : 1 ≤ (incomeCatsOf prop).length := List.length_pos.mpr hn
  refine ⟨?_, ?_, ?_⟩ <;>
  · rw [buildSheet_scan prop pl cl hInc hExp hNotes hFiles,
      applyHyperlinks_ne4 _ _ _ (by decide)]
    simp only [applyTotals, expectedScan, incomeTotalRowIdx]
    split_ifs <;> first
      | (exfalso; omega)
      | (simp only [Option.some.injEq, Cell.mk.injEq, Formula.sum.injEq,
          Formula.sub.injEq, and_true, true_and]; omega)

theorem buildSheet_totalExpense_cells (prop : PropertyData) (pl cl : Str)
    (hInc : ∀ c ∈ incomeCatsOf prop, c ∉ scanSentinels)
    (hExp : ∀ c ∈ expenseCatsOf prop, c ∉ scanSentinels)
    (hNotes : prop.notes ∉ scanSentinels)
    (hFiles : ∀ f ∈ prop.source_files_read, f ∉ scanSentinels)
    (hm : expenseCatsOf prop ≠ []) :
    buildSheet prop pl cl 1 (expenseTotalRowIdx prop)
        = some ⟨Option.none,
            some (.sum 1 (6 + (incomeCatsOf prop).length)
              (5 + (incomeCatsOf prop).length + (expenseCatsOf prop).length)),
            Option.none⟩
      ∧ buildSheet prop pl cl 2 (expenseTotalRowIdx prop)
        = some ⟨Option.none,
            some (.sum 2 (6 + (incomeCatsOf prop).length)
              (5 + (incomeCatsOf prop).length + (expenseCatsOf prop).length)),
            Option.none⟩
      ∧ buildSheet prop pl cl 3 (expenseTotalRowIdx prop)
        = some ⟨Option.none,
            some (.sub 2 (expenseTotalRowIdx prop) 1 (expenseTotalRowIdx prop)),
            Option.none⟩ := by
  have hm1 : 1 ≤ (expenseCatsOf prop).length := List.length_pos.mpr hm
  refine ⟨?_, ?_, ?_⟩ <;>
  · rw [buildSheet_scan prop pl cl hInc hExp hNotes hFiles,
      applyHyperlinks_ne4 _ _ _ (by decide)]
    simp only [applyTotals, expectedScan, expenseTotalRowIdx]
    split_ifs <;> first
      | (exfalso; omega)
      | (simp only [Option.some.injEq, Cell.mk.injEq, Formula.sum.injEq,
          Formula.sub.injEq, and_true, true_and]; omega)

theorem buildSheet_net_cells (prop : PropertyData) (pl cl : Str)
    (hInc : ∀ c ∈ incomeCatsOf prop, c ∉ scanSentinels)
    (hExp : ∀ c ∈ expenseCatsOf prop, c ∉ scanSentinels)
    (hNotes : prop.notes ∉ scanSentinels)
    (hFiles : ∀ f ∈ prop.source_files_read, f ∉ scanSentinels) :
    buildSheet prop pl cl 1 (netRowIdx prop)
        = some ⟨Option.none,
            some (.sub 1 (incomeTotalRowIdx prop) 1 (expenseTotalRowIdx prop)),
            Option.none⟩
      ∧ buildSheet prop pl cl 2 (netRowIdx prop)
        = some ⟨Option.none,
            some (.sub 2 (incomeTotalRowIdx prop) 2 (expenseTotalRowIdx prop)),
            Option.none⟩
      ∧ buildSheet prop pl cl 3 (netRowIdx prop)
        = some ⟨Option.none,
            some (.sub 2 (netRowIdx prop) 1 (netRowIdx prop)), Option.none⟩ := by
  refine ⟨?_, ?_, ?_⟩ <;>
  · rw [buildSheet_scan prop pl cl hInc hExp hNotes hFiles,
      applyHyperlinks_ne4 _ _ _ (by decide)]
    simp only [applyTotals, expectedScan, incomeTotalRowIdx, expenseTotalRowIdx,
      netRowIdx]
    split_ifs <;> first
      | (exfalso; omega)
      | (simp only [Option.some.injEq, Cell.mk.injEq, Formula.sum.injEq,
          Formula.sub.injEq, and_true, true_and]; omega)

/-! ### Spreadsheet evaluation lemmas -/

theorem evalCell_sum (ws : Sheet) (fuel c r cc r1 r2 : Nat)
    (h : ws c r = some ⟨Option.none, some (.sum cc r1 r2), Option.none⟩) :
    evalCell ws (fuel + 1) c r
      = ((List.range' r1 (r2 + 1 - r1)).map (fun rr => evalCell ws fuel cc rr)).sum := by
  conv_lhs => unfold evalCell
  rw [h]

theorem evalCell_sub (ws : Sheet) (fuel c r c1 r1 c2 r2 : Nat)
    (h : ws c r = some ⟨Option.none, some (.sub c1 r1 c2 r2), Option.none⟩) :
    evalCell ws (fuel + 1) c r = evalCell ws fuel c1 r1 - evalCell ws fuel c2 r2 := by
  conv_lhs => unfold evalCell
  rw [h]

theorem evalCell_val (ws : Sheet) (fuel c r : Nat) {v : CellV} {l : Option Str}
    (h : ws c r = some ⟨some v, Option.none, l⟩) :
    evalCell ws (fuel + 1) c r = evalCellV (some v) := by
  conv_lhs => unfold evalCell
  rw [h]

theorem sum_range'_map_cats (g : Nat → Int) (h : Str → Int) :
    ∀ (cats : List Str) (s : Nat),
      (∀ j cat, cats.get? j = some cat → g (s + j) = h cat) →
      ((List.range' s cats.length).map g).sum = (cats.map h).sum := by
  intro cats
  induction cats with
  | nil => intro s _; rfl
  | cons cat rest ih =>
    intro s hs
    show ((s :: List.range' (s + 1) rest.length).map g).sum = _
    simp only [List.map_cons, List.sum_cons]
    rw [show g s = h cat from by simpa using hs 0 cat rfl,
      ih (s + 1) (fun j c hj => by
        rw [show s + 1 + j = s + (j + 1) from by omega]
        exact hs (j + 1) c hj)]

theorem evalCell_totalIncome (prop : PropertyData) (pl cl : Str)
    (hInc : ∀ c ∈ incomeCatsOf prop, c ∉ scanSentinels)
    (hExp : ∀ c ∈ expenseCatsOf prop, c ∉ scanSentinels)
    (hNotes : prop.notes ∉ scanSentinels)
    (hFiles : ∀ f ∈ prop.source_files_read, f ∉ scanSentinels)
    (hn : incomeCatsOf prop ≠ []) :
    evalCell (buildSheet prop pl cl) 2 1 (incomeTotalRowIdx prop)
        = totalOfRat prop.income_prior (incomeCatsOf prop)
      ∧ evalCell (buildSheet prop pl cl) 2 2 (incomeTotalRowIdx prop)
        = totalOfCur prop.income (incomeCatsOf prop) := by
  obtain ⟨h1, h2, -⟩ :=
    buildSheet_totalIncome_cells prop pl cl hInc hExp hNotes hFiles hn
  constructor
  · rw [evalCell_sum _ _ _ _ _ _ _ h1,
      show 2 + (incomeCatsOf prop).length + 1 - 3 = (incomeCatsOf prop).length
        from by omega,
      sum_range'_map_cats _ (fun cat => lookupRat prop.income_prior cat)
        (incomeCatsOf prop) 3 (fun j cat hj => by
          rw [evalCell_val _ 0 _ _
            (buildSheet_income_data prop pl cl hInc hExp hNotes hFiles hj
              (Or.inl rfl) rfl)]
          rfl)]
    rfl
  · rw [evalCell_sum _ _ _ _ _ _ _ h2,
      show 2 + (incomeCatsOf prop).length + 1 - 3 = (incomeCatsOf prop).length
        from by omega,
      sum_range'_map_cats _ (fun cat => currentAmt prop.income cat)
        (incomeCatsOf prop) 3 (fun j cat hj => by
          rw [evalCell_val _ 0 _ _
            (buildSheet_income_data prop pl cl hInc hExp hNotes hFiles hj
              (Or.inr rfl) rfl)]
          rfl)]
    rfl

theorem evalCell_totalExpense (prop : PropertyData) (pl cl : Str)
    (hInc : ∀ c ∈ incomeCatsOf prop, c ∉ scanSentinels)
    (hExp : ∀ c ∈ expenseCatsOf prop, c ∉ scanSentinels)
    (hNotes : prop.notes ∉ scanSentinels)
    (hFiles : ∀ f ∈ prop.source_files_read, f ∉ scanSentinels)
    (hm : expenseCatsOf prop ≠ []) :
    evalCell (buildSheet prop pl cl) 2 1 (expenseTotalRowIdx prop)
        = totalOfRat prop.expenses_prior (expenseCatsOf prop)
      ∧ evalCell (buildSheet prop pl cl) 2 2 (expenseTotalRowIdx prop)
        = totalOfCur prop.expenses (expenseCatsOf prop) := by
  obtain ⟨h1, h2, -⟩ :=
    buildSheet_totalExpense_cells prop pl cl hInc hExp hNotes hFiles hm
  constructor
  · rw [evalCell_sum _ _ _ _ _ _ _ h1,
      show 5 + (incomeCatsOf prop).length + (expenseCatsOf prop).length + 1
          - (6 + (incomeCatsOf prop).length) = (expenseCatsOf prop).length
        from by omega,
      sum_range'_map_cats _ (fun cat => lookupRat prop.expenses_prior cat)
        (expenseCatsOf prop) (6 + (incomeCatsOf prop).length) (fun j cat hj => by
          rw [evalCell_val _ 0 _ _
            (buildSheet_expense_data prop pl cl hInc hExp hNotes hFiles hj
              (Or.inl rfl) rfl)]
          rfl)]
    rfl
  · rw [evalCell_sum _ _ _ _ _ _ _ h2,
      show 5 + (incomeCatsOf prop).length + (expenseCatsOf prop).length + 1
          - (6 + (incomeCatsOf prop).length) = (expenseCatsOf prop).length
        from by omega,
      sum_range'_map_cats _ (fun cat => currentAmt prop.expenses cat)
        (expenseCatsOf prop) (6 + (incomeCatsOf prop).length) (fun j cat hj => by
          rw [evalCell_val _ 0 _ _
            (buildSheet_expense_data prop pl cl hInc hExp hNotes hFiles hj
              (Or.inr rfl) rfl)]
          rfl)]
    rfl

theorem evalCell_net (prop : PropertyData) (pl cl : Str)
    (hInc : ∀ c ∈ incomeCatsOf prop, c ∉ scanSentinels)
    (hExp : ∀ c ∈ expenseCatsOf prop, c ∉ scanSentinels)
    (hNotes : prop.notes ∉ scanSentinels)
    (hFiles : ∀ f ∈ prop.source_files_read, f ∉ scanSentinels)
    (hn : incomeCatsOf prop ≠ []) (hm : expenseCatsOf prop ≠ []) :
    evalCell (buildSheet prop pl cl) 3 1 (netRowIdx prop)
        = totalOfRat prop.income_prior (incomeCatsOf prop)
          - totalOfRat prop.expenses_prior (expenseCatsOf prop)
      ∧ evalCell (buildSheet prop pl cl) 3 2 (netRowIdx prop)
        = totalOfCur prop.income (incomeCatsOf prop)
          - totalOfCur prop.expenses (expenseCatsOf prop) := by
  obtain ⟨h1, h2, -⟩ := buildSheet_net_cells prop pl cl hInc hExp hNotes hFiles
  constructor
  · rw [evalCell_sub _ _ _ _ _ _ _ _ h1,
      (evalCell_totalIncome prop pl cl hInc hExp hNotes hFiles hn).1,
      (evalCell_totalExpense prop pl cl hInc hExp hNotes hFiles hm).1]
  · rw [evalCell_sub _ _ _ _ _ _ _ _ h2,
      (evalCell_totalIncome prop pl cl hInc hExp hNotes hFiles hn).2,
      (evalCell_totalExpense prop pl cl hInc hExp hNotes hFiles hm).2]

/-! ### Ledger-total lemmas -/

theorem sum_ite_zero_of_not_mem {k : Str} (x : Int) :
    ∀ {cats : List Str}, k ∉ cats →
      (cats.map (fun c => if c = k then x else 0)).sum = 0 := by
  intro cats
  induction cats with
  | nil => intro _; rfl
  | cons a rest ih =>
    intro h
    simp only [List.map_cons, List.sum_cons]
    rw [if_neg (fun he => h (by rw [← he]; exact List.mem_cons_self a rest)),
      ih (fun hm => h (List.mem_cons_of_mem a hm))]
    decide

theorem sum_ite_single {k : Str} (x : Int) :
    ∀ {cats : List Str}, cats.Nodup → k ∈ cats →
      (cats.map (fun c => if c = k then x else 0)).sum = x := by
  intro cats
  induction cats with
  | nil => intro _ h; cases h
  | cons a rest ih =>
    intro hnd hmem
    simp only [List.map_cons, List.sum_cons]
    by_cases ha : a = k
    · subst ha
      rw [if_pos rfl, sum_ite_zero_of_not_mem x (List.nodup_cons.mp hnd).1]
      omega
    · rw [if_neg ha,
        ih (List.nodup_cons.mp hnd).2
          ((List.mem_cons.mp hmem).resolve_left (fun he => ha he.symm))]
      omega

theorem currentAmt_cons {k : Str} {sm : SourceMapping}
    {rest : List (Str × SourceMapping)} (hk : k ∉ rest.map Prod.fst) (c : Str) :
    currentAmt ((k, sm) :: rest) c
      = currentAmt rest c + (if c = k then sm.amount else 0) := by
  by_cases hc : c = k
  · subst hc
    rw [if_pos rfl]
    unfold currentAmt lookupSM
    rw [List.find?_cons_of_pos _ (by simp),
      List.find?_eq_none.mpr
        (fun p hp hpk => hk (List.mem_map.mpr ⟨p, hp, by simpa using hpk⟩))]
    simp
  · rw [if_neg hc]
    unfold currentAmt lookupSM
    rw [List.find?_cons_of_neg _ (by simp; exact fun he => hc he.symm)]
    omega

theorem totalOfCur_keys (cur : List (Str × SourceMapping)) (cats : List Str)
    (hcnd : cats.Nodup) :
    (cur.map Prod.fst).Nodup → (∀ k ∈ cur.map Prod.fst, k ∈ cats) →
      totalOfCur cur cats = (cur.map (fun p => p.2.amount)).sum := by
  induction cur with
  | nil =>
    intro _ _
    unfold totalOfCur
    rw [List.map_congr_left (fun a _ => show currentAmt [] a = 0 from rfl)]
    simp
  | cons p rest ih =>
    obtain ⟨k, sm⟩ := p
    intro hknd hsub
    have hk : k ∉ rest.map Prod.fst := (List.nodup_cons.mp hknd).1
    unfold totalOfCur
    rw [List.map_congr_left (fun c _ => currentAmt_cons hk c), List.sum_map_add,
      sum_ite_single sm.amount hcnd (hsub k (List.mem_cons_self _ _))]
    have ih' := ih (List.nodup_cons.mp hknd).2
      (fun k' hk' => hsub k' (List.mem_cons_of_mem _ hk'))
    unfold totalOfCur at ih'
    rw [ih']
    simp only [List.map_cons, List.sum_cons]
    omega

/-! ### Reconciler lemmas -/

theorem includesC_eq_isSome_firstIdx (l : Str) (c : Char) :
    includesC l c = (firstIdx l c).isSome := by
  induction l with
  | nil => rfl
  | cons a rest ih =>
    by_cases h : a = c
    · simp [includesC, firstIdx, h]
    · cases hfi : firstIdx rest c with
      | none =>
        rw [hfi] at ih
        simp [includesC, firstIdx, h, hfi, ih]
      | some i =>
        rw [hfi] at ih
        simp [includesC, firstIdx, h, hfi, ih]

theorem firstIdx_lt_length {l : Str} {c : Char} {i : Nat}
    (h : firstIdx l c = some i) : i < l.length := by
  induction l generalizing i with
  | nil => simp [firstIdx] at h
  | cons a rest ih =>
    by_cases ha : a = c
    · rw [firstIdx, if_pos ha] at h
      cases h
      simp
    · rw [firstIdx, if_neg ha] at h
      cases hfi : firstIdx rest c with
      | none => rw [hfi] at h; simp at h
      | some j =>
        rw [hfi] at h
        simp at h
        have := ih hfi
        simp only [List.length_cons]
        omega

theorem cleanResponse_eq_sliceSpec (t : Str) :
    cleanResponse t = sliceSpec (trimL t) := by
  unfold cleanResponse sliceSpec
  cases h1 : firstIdx (trimL t) lbrace with
  | none =>
    have hcont : includesC (trimL t) lbrace = false := by
      rw [includesC_eq_isSome_firstIdx, h1]; rfl
    simp [hcont]
  | some i =>
    have hcont : includesC (trimL t) lbrace = true := by
      rw [includesC_eq_isSome_firstIdx, h1]; rfl
    cases h2 : lastIdx (trimL t) rbrace with
    | none =>
      simp only [hcont, if_true, jsIndexOf, jsLastIndexOf, h1, h2]
      rw [if_neg (by simp)]
    | some j =>
      simp only [hcont, if_true, jsIndexOf, jsLastIndexOf, h1, h2]
      by_cases hij : i < j
      · rw [if_pos ⟨by omega, by omega, by exact_mod_cast hij⟩, if_pos hij]
        simp
      · rw [if_neg (by rintro ⟨-, -, hlt⟩; exact hij (by exact_mod_cast hlt)),
            if_neg hij]

/-- Fixed model reply used by concrete witnesses. -/
def sampleResult : AnalysisResult :=
  ⟨some 2024, [], lit "draft", [lit "model-reported.pdf"]⟩

/-- A parse function standing for `JSON.parse` succeeding with
`sampleResult`. -/
def sampleParse : Str → Option AnalysisResult := fun _ => some sampleResult

/-- C1: for every pipeline run whose model reply parses as JSON, the
`AnalysisResult` returned by `POST` carries `all_files_detected` equal to
the pipeline's own manifest (same entries, same order), regardless of the
file list the parsed reply itself reported. -/
theorem success_all_files_eq_manifest (parse : Str → Option AnalysisResult)
    (text : Str) (manifest : List Str) (d : AnalysisResult)
    (h : reconcileOutcome parse text manifest = .success d) :
    d.all_files_detected = manifest := by
  unfold reconcileOutcome at h
  split at h
  · exact absurd h (by simp)
  · split at h
    · exact absurd h (by simp)
    · rw [PostResult.success.injEq] at h
      subst h
      rfl

/-- Witness for C1: a concrete run in which the model reported
`["model-reported.pdf"]` but the returned result carries the pipeline
manifest `["a.msg", "a.msg > b.pdf"]`. -/
theorem success_all_files_eq_manifest_witness :
    reconcileOutcome sampleParse (lit "ok") [lit "a.msg", lit "a.msg > b.pdf"] =
      .success { sampleResult with all_files_detected := [lit "a.msg", lit "a.msg > b.pdf"] }
    ∧ ({ sampleResult with all_files_detected := [lit "a.msg", lit "a.msg > b.pdf"] } :
        AnalysisResult).all_files_detected = [lit "a.msg", lit "a.msg > b.pdf"] :=
  ⟨by decide,
   success_all_files_eq_manifest sampleParse (lit "ok")
     [lit "a.msg", lit "a.msg > b.pdf"] _ (by decide)⟩

/-- C3: blank reply text yields the distinct empty-response error without
any parse; otherwise the trimmed text is sliced from the first `{` to the
last `}` exactly when both occur in that order (else parsed as-is), a parse
failure yields the malformed-response error carrying the parse input
truncated to 500 characters, and a successful parse is the only non-error
outcome. -/
theorem reconciler_error_handling (parse : Str → Option AnalysisResult)
    (text : Str) (manifest : List Str) :
    cleanResponse text = sliceSpec (trimL text)
    ∧ (trimL text = [] → reconcileOutcome parse text manifest = .emptyResponse)
    ∧ (trimL text ≠ [] →
        reconcileOutcome parse text manifest =
          match parse (sliceSpec (trimL text)) with
          | none => .malformed ((sliceSpec (trimL text)).take 500)
          | some d => .success { d with all_files_detected := manifest }) := by
  refine ⟨cleanResponse_eq_sliceSpec text, fun hb => ?_, fun hnb => ?_⟩
  · unfold reconcileOutcome
    rw [if_pos (Or.inr hb)]
  · unfold reconcileOutcome
    rw [if_neg (by rintro (rfl | h) <;> exact hnb (by first | rfl | exact h))]
    rw [cleanResponse_eq_sliceSpec]

/-- Witness for C3: the blank branch at `"  "` and the slicing/malformed
branch at a chatty non-JSON reply, both concrete. -/
theorem reconciler_error_handling_witness :
    reconcileOutcome sampleParse (lit "  ") [] = .emptyResponse
    ∧ reconcileOutcome (fun _ => Option.none) (lit "note \x7bx\x7d done") [] =
        .malformed (lit "\x7bx\x7d") :=
  ⟨(reconciler_error_handling sampleParse (lit "  ") []).2.1 (by decide),
   by
    have h := (reconciler_error_handling (fun _ => Option.none)
      (lit "note \x7bx\x7d done") []).2.2 (by decide)
    rw [h]
    decide⟩

/-! ### Extension-driven dispatch (claims about the sniffer) -/

/-- The supported extension set of the specification (upload filter and
sniffer). -/
def supportedExts : List Str :=
  [lit "pdf", lit "jpg", lit "jpeg", lit "png", lit "xlsx", lit "xls",
   lit "csv", lit "docx", lit "doc", lit "msg"]

/-- A non-skipped, non-oversize file whose (case-folded) extension is
pdf/jpg/jpeg/png is dispatched to binary passthrough: one Binary part with
the file's bytes and the table MIME type, one manifest entry. -/
theorem processFile_binary_of_ext (name : Str) (len : Nat) (b64 : Str)
    (extr : ExtractKind) (atts : List FileTree) (filename currentPath : Str)
    (hs : shouldSkipFile filename = false) (hl : len ≤ MAX_FILE_SIZE)
    (hext : getExt filename = lit "pdf" ∨ getExt filename = lit "jpg"
      ∨ getExt filename = lit "jpeg" ∨ getExt filename = lit "png") :
    processFile (.mk name len b64 extr atts) filename currentPath =
      ([⟨b64, getMimeType filename⟩], [normName currentPath filename]) := by
  have hkey : ∀ s : Str, '.' ∉ s → lowerL s = s → (s = lit "pdf" → False) →
      (s = lit "jpg" → False) → (s = lit "jpeg" → False) → (s = lit "png" → False) →
      endsL filename ('.' :: s) = false := by
    intro s hd hlow h1 h2 h3 h4
    apply not_endsL_of_getExt hd
    rw [hlow]
    rcases hext with h | h | h | h <;> rw [h] <;> intro hEq <;>
      first
        | exact h1 hEq.symm
        | exact h2 hEq.symm
        | exact h3 hEq.symm
        | exact h4 hEq.symm
  apply processFile_binary name len b64 extr atts filename currentPath hs hl
  · exact hkey (lit "msg") (by decide) (by decide) (by decide) (by decide)
      (by decide) (by decide)
  · exact hkey (lit "docx") (by decide) (by decide) (by decide) (by decide)
      (by decide) (by decide)
  · exact hkey (lit "xlsx") (by decide) (by decide) (by decide) (by decide)
      (by decide) (by decide)
  · exact hkey (lit "xls") (by decide) (by decide) (by decide) (by decide)
      (by decide) (by decide)
  · exact hkey (lit "csv") (by decide) (by decide) (by decide) (by decide)
      (by decide) (by decide)
  · rcases hext with h | h | h | h
    · right
      unfold getMimeType
      rw [h]
      decide
    · left
      unfold getMimeType
      rw [h]
      decide
    · left
      unfold getMimeType
      rw [h]
      decide
    · left
      unfold getMimeType
      rw [h]
      decide

/-- C10 counterexample: a processed `invoice.pdf` yields exactly ONE part —
the binary passthrough — with no following `[BINARY FILE: …]` text label
part, contradicting the claimed two-part emission. -/
theorem binary_passthrough_label_counterexample :
    (processFile (.mk (lit "invoice.pdf") 4 (lit "JVBE") .unused [])
        (lit "invoice.pdf") []).1 =
      [⟨lit "JVBE", lit "application/pdf"⟩]
    ∧ ((processFile (.mk (lit "invoice.pdf") 4 (lit "JVBE") .unused [])
        (lit "invoice.pdf") []).1).length = 1 := by
  constructor <;> decide

/-- C10 (amended): a processed pdf/jpg/jpeg/png file (not skipped, not
oversize) emits exactly one part, the Binary part carrying the file's own
bytes with the fixed extension→MIME mapping, and its own manifest entry;
no text label part accompanies it. -/
theorem binary_passthrough_single_part (name : Str) (len : Nat) (b64 : Str)
    (extr : ExtractKind) (atts : List FileTree) (filename currentPath : Str)
    (hs : shouldSkipFile filename = false) (hl : len ≤ MAX_FILE_SIZE)
    (hext : getExt filename = lit "pdf" ∨ getExt filename = lit "jpg"
      ∨ getExt filename = lit "jpeg" ∨ getExt filename = lit "png") :
    processFile (.mk name len b64 extr atts) filename currentPath =
      ([⟨b64, getMimeType filename⟩], [normName currentPath filename]) :=
  processFile_binary_of_ext name len b64 extr atts filename currentPath hs hl hext

/-- Witness for the amended C10 at `photo.png`. -/
theorem binary_passthrough_single_part_witness :
    getExt (lit "photo.png") = lit "png"
    ∧ processFile (.mk (lit "photo.png") 7 (lit "PNGB") .unused [])
        (lit "photo.png") [] =
      ([⟨lit "PNGB", getMimeType (lit "photo.png")⟩], [normName [] (lit "photo.png")]) :=
  ⟨by decide,
   binary_passthrough_single_part (lit "photo.png") 7 (lit "PNGB") .unused []
     (lit "photo.png") [] (by decide) (by decide) (Or.inr (Or.inr (Or.inr (by decide))))⟩

/-- C4 counterexample: `notes.txt` has an unsupported extension yet is NOT
skipped — it receives a manifest entry and a placeholder text part. -/
theorem unsupported_extension_skip_counterexample :
    processFile (.mk (lit "notes.txt") 5 (lit "QQ") .unused [])
        (lit "notes.txt") [] =
      ([⟨lit "--- BINARY FILE: notes.txt ---", lit "text/plain"⟩], [lit "notes.txt"])
    ∧ getExt (lit "notes.txt") ∉ supportedExts := by
  constructor <;> decide

/-- C4 (amended): a file whose extension is outside the supported set is
not skipped: unless it matches the ignore patterns or the size cap, it
appends its manifest entry and emits one `"--- BINARY FILE: <path> ---"`
text placeholder part. -/
theorem unsupported_extension_placeholder (name : Str) (len : Nat) (b64 : Str)
    (extr : ExtractKind) (atts : List FileTree) (filename currentPath : Str)
    (hs : shouldSkipFile filename = false) (hl : len ≤ MAX_FILE_SIZE)
    (hext : getExt filename ∉ supportedExts) :
    processFile (.mk name len b64 extr atts) filename currentPath =
      ([⟨lit "--- BINARY FILE: " ++ normName currentPath filename ++ lit " ---",
         lit "text/plain"⟩], [normName currentPath filename]) := by
  have hend : ∀ s : Str, '.' ∉ s → lowerL s = s → s ∈ supportedExts →
      endsL filename ('.' :: s) = false := by
    intro s hd hlow hmem
    exact not_endsL_of_getExt hd (by rw [hlow]; intro hEq; exact hext (hEq ▸ hmem))
  have hoct : getMimeType filename = lit "application/octet-stream" := by
    unfold getMimeType getMimeTypeOfExt
    iterate 9 rw [if_neg (fun h => hext (by rw [h]; decide))]
  apply processFile_placeholder name len b64 extr atts filename currentPath hs hl
  · exact hend (lit "msg") (by decide) (by decide) (by decide)
  · exact hend (lit "docx") (by decide) (by decide) (by decide)
  · exact hend (lit "xlsx") (by decide) (by decide) (by decide)
  · exact hend (lit "xls") (by decide) (by decide) (by decide)
  · exact hend (lit "csv") (by decide) (by decide) (by decide)
  · rw [hoct]
    decide
  · rw [hoct]
    decide

/-- Witness for the amended C4 at `notes.txt`. -/
theorem unsupported_extension_placeholder_witness :
    getExt (lit "notes.txt") ∉ supportedExts
    ∧ processFile (.mk (lit "notes.txt") 5 (lit "QQ") .unused [])
        (lit "notes.txt") [] =
      ([⟨lit "--- BINARY FILE: " ++ normName [] (lit "notes.txt") ++ lit " ---",
         lit "text/plain"⟩], [normName [] (lit "notes.txt")]) :=
  ⟨by decide,
   unsupported_extension_placeholder (lit "notes.txt") 5 (lit "QQ") .unused []
     (lit "notes.txt") [] (by decide) (by decide) (by decide)⟩

/-- Dispatch is invariant under the case of a binary-passthrough extension:
the upper-case and lower-case spellings of pdf/jpg/jpeg/png agree on skip,
oversize and the binary branch. -/
theorem processFile_case_pair (stem eU eL E : Str)
    (hdU : '.' ∉ eU) (hdL : '.' ∉ eL)
    (hlowU : lowerL eU = E) (hlowL : lowerL eL = E)
    (hE : E = lit "pdf" ∨ E = lit "jpg" ∨ E = lit "jpeg" ∨ E = lit "png")
    (name : Str) (len : Nat) (b64 : Str) (extr : ExtractKind)
    (atts : List FileTree) (currentPath : Str) :
    (processFile (.mk name len b64 extr atts) (stem ++ '.' :: eU) currentPath).1 =
      (processFile (.mk name len b64 extr atts) (stem ++ '.' :: eL) currentPath).1
    ∧ (processFile (.mk name len b64 extr atts) (stem ++ '.' :: eU) currentPath).2.length =
      (processFile (.mk name len b64 extr atts) (stem ++ '.' :: eL) currentPath).2.length := by
  have hlowdot : lowerL ('.' :: eU) = lowerL ('.' :: eL) := by
    show Char.toLower '.' :: lowerL eU = Char.toLower '.' :: lowerL eL
    rw [hlowU, hlowL]
  have hskipEq := shouldSkipFile_case_pair stem ('.' :: eU) ('.' :: eL) rfl rfl hlowdot
  by_cases hsk : shouldSkipFile (stem ++ '.' :: eL) = true
  · rw [processFile_skip _ _ _ (by rw [hskipEq]; exact hsk), processFile_skip _ _ _ hsk]
    exact ⟨rfl, rfl⟩
  · have hskL : shouldSkipFile (stem ++ '.' :: eL) = false := by simpa using hsk
    have hskU : shouldSkipFile (stem ++ '.' :: eU) = false := by rw [hskipEq]; exact hskL
    by_cases hov : MAX_FILE_SIZE < len
    · rw [processFile_oversize (.mk name len b64 extr atts) (stem ++ '.' :: eU)
          currentPath hov,
        processFile_oversize (.mk name len b64 extr atts) (stem ++ '.' :: eL)
          currentPath hov]
      exact ⟨rfl, rfl⟩
    · have hl : len ≤ MAX_FILE_SIZE := Nat.not_lt.mp hov
      have hgU : getExt (stem ++ '.' :: eU) = E := by
        rw [getExt_of_suffix hdU (List.suffix_append stem ('.' :: eU)), hlowU]
      have hgL : getExt (stem ++ '.' :: eL) = E := by
        rw [getExt_of_suffix hdL (List.suffix_append stem ('.' :: eL)), hlowL]
      rw [processFile_binary_of_ext name len b64 extr atts _ currentPath hskU hl
          (by rw [hgU]; exact hE),
        processFile_binary_of_ext name len b64 extr atts _ currentPath hskL hl
          (by rw [hgL]; exact hE)]
      have hmime : getMimeType (stem ++ '.' :: eU) = getMimeType (stem ++ '.' :: eL) := by
        unfold getMimeType
        rw [hgU, hgL]
      rw [hmime]
      exact ⟨rfl, rfl⟩

/-- C5 counterexample: the same mail bytes named `Email.MSG` take the
unsupported-placeholder branch while named `email.msg` they take the
container branch — upper-casing a `.msg` extension changes the dispatch
strategy and the emitted part. -/
theorem msg_case_sensitivity_counterexample :
    (processFile (.mk (lit "Email.MSG") 8 (lit "MM")
        (.msg false Option.none Option.none Option.none Option.none Option.none) [])
      (lit "Email.MSG") []).1 =
      [⟨lit "--- BINARY FILE: Email.MSG ---", lit "text/plain"⟩]
    ∧ (processFile (.mk (lit "email.msg") 8 (lit "MM")
        (.msg false Option.none Option.none Option.none Option.none Option.none) [])
      (lit "email.msg") []).1 =
      [⟨lit "--- EMAIL: email.msg ---\n\nBody:\n(No body text)\n", lit "text/plain"⟩] := by
  constructor <;> decide

/-- C5 (amended): case-insensitivity of classification holds exactly for
the binary-passthrough extensions: for pdf/jpg/jpeg/png, a file named with
the upper-case extension yields the same parts and the same number of
manifest entries as with the lower-case one.  (For msg/docx/xlsx/xls/csv
the `endsWith` dispatch is case-sensitive; see the counterexample.) -/
theorem binary_case_insensitive (stem : Str) (up low : Str)
    (hpair : (up, low) ∈ [(lit ".PDF", lit ".pdf"), (lit ".JPG", lit ".jpg"),
      (lit ".JPEG", lit ".jpeg"), (lit ".PNG", lit ".png")])
    (name : Str) (len : Nat) (b64 : Str) (extr : ExtractKind)
    (atts : List FileTree) (currentPath : Str) :
    (processFile (.mk name len b64 extr atts) (stem ++ up) currentPath).1 =
      (processFile (.mk name len b64 extr atts) (stem ++ low) currentPath).1
    ∧ (processFile (.mk name len b64 extr atts) (stem ++ up) currentPath).2.length =
      (processFile (.mk name len b64 extr atts) (stem ++ low) currentPath).2.length := by
  simp only [List.mem_cons, List.mem_singleton, Prod.mk.injEq,
    List.not_mem_nil, or_false] at hpair
  rcases hpair with ⟨rfl, rfl⟩ | ⟨rfl, rfl⟩ | ⟨rfl, rfl⟩ | ⟨rfl, rfl⟩
  · exact processFile_case_pair stem (lit "PDF") (lit "pdf") (lit "pdf")
      (by decide) (by decide) (by decide) (by decide) (Or.inl rfl)
      name len b64 extr atts currentPath
  · exact processFile_case_pair stem (lit "JPG") (lit "jpg") (lit "jpg")
      (by decide) (by decide) (by decide) (by decide) (Or.inr (Or.inl rfl))
      name len b64 extr atts currentPath
  · exact processFile_case_pair stem (lit "JPEG") (lit "jpeg") (lit "jpeg")
      (by decide) (by decide) (by decide) (by decide) (Or.inr (Or.inr (Or.inl rfl)))
      name len b64 extr atts currentPath
  · exact processFile_case_pair stem (lit "PNG") (lit "png") (lit "png")
      (by decide) (by decide) (by decide) (by decide) (Or.inr (Or.inr (Or.inr rfl)))
      name len b64 extr atts currentPath

/-- Witness for the amended C5: `Photo.JPG` vs `Photo.jpg`. -/
theorem binary_case_insensitive_witness :
    (processFile (.mk (lit "p.jpg") 3 (lit "JJ") .unused [])
        (lit "Photo" ++ lit ".JPG") []).1 =
      (processFile (.mk (lit "p.jpg") 3 (lit "JJ") .unused [])
        (lit "Photo" ++ lit ".jpg") []).1 :=
  (binary_case_insensitive (lit "Photo") (lit ".JPG") (lit ".jpg") (by decide)
    (lit "p.jpg") 3 (lit "JJ") .unused [] []).1

/-- C8 counterexample: the claim promises that for EVERY property the
`TOTAL INCOME` cells are written as live `SUM` formulas rather than
pre-computed literals.  For a property with no income categories at all the
formula overlay is guarded by `incomeEnd >= incomeStart`, which fails for
the empty block, so the prior-year `TOTAL INCOME` cell keeps its
pre-computed literal `0` and carries no formula. -/
theorem workbook_totals_counterexample :
    incomeCatsOf emptyIncomeProp = [] ∧
      buildSheet emptyIncomeProp (lit "P") (lit "C") 1
          (incomeTotalRowIdx emptyIncomeProp)
        = some ⟨some (.n 0), Option.none, Option.none⟩ := by
  constructor
  · rfl
  · decide

/-- C8 (amended): for a property whose income and expense blocks are both
nonempty and whose category names, notes and source-file labels avoid the
five section-sentinel strings, the workbook builder satisfies the claim:
(1) each block lists the lexicographically sorted, duplicate-free union of
current- and prior-year category keys; (2) the block rows are exactly one
`catRow` per category in that order, with absent amounts defaulting to 0;
(3) the `TOTAL INCOME`, `TOTAL EXPENSES` and `NET RENTAL INCOME` cells are
formula-only cells (`SUM` over the block's row range, variance and net as
subtraction formulas) with no cached literal; (4) the `SUM` formulas
evaluate to the column sums over the block, and the current-year total
equals the summed ledger amounts; (5) the net row evaluates to
`TOTAL INCOME - TOTAL EXPENSES` in both the prior and current columns. -/
theorem workbook_totals_formulas (prop : PropertyData) (pl cl : Str)
    (hIncNe : incomeCatsOf prop ≠ []) (hExpNe : expenseCatsOf prop ≠ [])
    (hInc : ∀ c ∈ incomeCatsOf prop, c ∉ scanSentinels)
    (hExp : ∀ c ∈ expenseCatsOf prop, c ∉ scanSentinels)
    (hNotes : prop.notes ∉ scanSentinels)
    (hFiles : ∀ f ∈ prop.source_files_read, f ∉ scanSentinels)
    (hKeysI : (prop.income.map Prod.fst).Nodup)
    (hKeysE : (prop.expenses.map Prod.fst).Nodup) :
    ((incomeCatsOf prop).Sorted strLeR ∧ (incomeCatsOf prop).Nodup ∧
      (∀ k, k ∈ incomeCatsOf prop ↔
        (k ∈ prop.income.map Prod.fst ∨ k ∈ prop.income_prior.map Prod.fst)) ∧
      (expenseCatsOf prop).Sorted strLeR ∧ (expenseCatsOf prop).Nodup ∧
      (∀ k, k ∈ expenseCatsOf prop ↔
        (k ∈ prop.expenses.map Prod.fst ∨ k ∈ prop.expenses_prior.map Prod.fst)))
    ∧ (((buildRows prop pl cl).drop 3).take (incomeCatsOf prop).length
        = (incomeCatsOf prop).map (catRow prop.income_prior prop.income) ∧
      ((buildRows prop pl cl).drop (6 + (incomeCatsOf prop).length)).take
          (expenseCatsOf prop).length
        = (expenseCatsOf prop).map (catRow prop.expenses_prior prop.expenses) ∧
      (∀ k, k ∉ prop.income_prior.map Prod.fst → lookupRat prop.income_prior k = 0) ∧
      (∀ k, k ∉ prop.income.map Prod.fst → currentAmt prop.income k = 0))
    ∧ (buildSheet prop pl cl 1 (incomeTotalRowIdx prop)
        = some ⟨Option.none,
            some (.sum 1 3 (2 + (incomeCatsOf prop).length)), Option.none⟩ ∧
      buildSheet prop pl cl 2 (incomeTotalRowIdx prop)
        = some ⟨Option.none,
            some (.sum 2 3 (2 + (incomeCatsOf prop).length)), Option.none⟩ ∧
      buildSheet prop pl cl 3 (incomeTotalRowIdx prop)
        = some ⟨Option.none,
            some (.sub 2 (incomeTotalRowIdx prop) 1 (incomeTotalRowIdx prop)),
            Option.none⟩ ∧
      buildSheet prop pl cl 1 (expenseTotalRowIdx prop)
        = some ⟨Option.none,
            some (.sum 1 (6 + (incomeCatsOf prop).length)
              (5 + (incomeCatsOf prop).length + (expenseCatsOf prop).length)),
            Option.none⟩ ∧
      buildSheet prop pl cl 2 (expenseTotalRowIdx prop)
        = some ⟨Option.none,
            some (.sum 2 (6 + (incomeCatsOf prop).length)
              (5 + (incomeCatsOf prop).length + (expenseCatsOf prop).length)),
            Option.none⟩ ∧
      buildSheet prop pl cl 3 (expenseTotalRowIdx prop)
        = some ⟨Option.none,
            some (.sub 2 (expenseTotalRowIdx prop) 1 (expenseTotalRowIdx prop)),
            Option.none⟩ ∧
      buildSheet prop pl cl 1 (netRowIdx prop)
        = some ⟨Option.none,
            some (.sub 1 (incomeTotalRowIdx prop) 1 (expenseTotalRowIdx prop)),
            Option.none⟩ ∧
      buildSheet prop pl cl 2 (netRowIdx prop)
        = some ⟨Option.none,
            some (.sub 2 (incomeTotalRowIdx prop) 2 (expenseTotalRowIdx prop)),
            Option.none⟩ ∧
      buildSheet prop pl cl 3 (netRowIdx prop)
        = some ⟨Option.none,
            some (.sub 2 (netRowIdx prop) 1 (netRowIdx prop)), Option.none⟩)
    ∧ (evalCell (buildSheet prop pl cl) 2 1 (incomeTotalRowIdx prop)
        = totalOfRat prop.income_prior (incomeCatsOf prop) ∧
      evalCell (buildSheet prop pl cl) 2 2 (incomeTotalRowIdx prop)
        = totalOfCur prop.income (incomeCatsOf prop) ∧
      totalOfCur prop.income (incomeCatsOf prop)
        = (prop.income.map (fun p => p.2.amount)).sum ∧
      evalCell (buildSheet prop pl cl) 2 1 (expenseTotalRowIdx prop)
        = totalOfRat prop.expenses_prior (expenseCatsOf prop) ∧
      evalCell (buildSheet prop pl cl) 2 2 (expenseTotalRowIdx prop)
        = totalOfCur prop.expenses (expenseCatsOf prop) ∧
      totalOfCur prop.expenses (expenseCatsOf prop)
        = (prop.expenses.map (fun p => p.2.amount)).sum)
    ∧ (evalCell (buildSheet prop pl cl) 3 1 (netRowIdx prop)
        = totalOfRat prop.income_prior (incomeCatsOf prop)
          - totalOfRat prop.expenses_prior (expenseCatsOf prop) ∧
      evalCell (buildSheet prop pl cl) 3 2 (netRowIdx prop)
        = totalOfCur prop.income (incomeCatsOf prop)
          - totalOfCur prop.expenses (expenseCatsOf prop)) := by
  obtain ⟨e1, e2⟩ := evalCell_totalIncome prop pl cl hInc hExp hNotes hFiles hIncNe
  obtain ⟨e3, e4⟩ := evalCell_totalExpense prop pl cl hInc hExp hNotes hFiles hExpNe
  obtain ⟨e5, e6⟩ := evalCell_net prop pl cl hInc hExp hNotes hFiles hIncNe hExpNe
  obtain ⟨t1, t2, t3⟩ :=
    buildSheet_totalIncome_cells prop pl cl hInc hExp hNotes hFiles hIncNe
  obtain ⟨t4, t5, t6⟩ :=
    buildSheet_totalExpense_cells prop pl cl hInc hExp hNotes hFiles hExpNe
  obtain ⟨t7, t8, t9⟩ := buildSheet_net_cells prop pl cl hInc hExp hNotes hFiles
  refine ⟨⟨mergedCats_sorted _ _, mergedCats_nodup _ _, fun k => mergedCats_mem _ _ k,
      mergedCats_sorted _ _, mergedCats_nodup _ _, fun k => mergedCats_mem _ _ k⟩,
    ⟨buildRows_income_slice prop pl cl, buildRows_expense_slice prop pl cl,
      fun k hk => lookupRat_absent hk, fun k hk => currentAmt_absent hk⟩,
    ⟨t1, t2, t3, t4, t5, t6, t7, t8, t9⟩,
    ⟨e1, e2, totalOfCur_keys prop.income (incomeCatsOf prop) (mergedCats_nodup _ _)
        hKeysI (fun k hk => (mergedCats_mem _ _ k).mpr (Or.inl hk)),
      e3, e4, totalOfCur_keys prop.expenses (expenseCatsOf prop)
        (mergedCats_nodup _ _) hKeysE
        (fun k hk => (mergedCats_mem _ _ k).mpr (Or.inl hk))⟩,
    ⟨e5, e6⟩⟩

theorem workbook_totals_formulas_witness :
    (evalCell (buildSheet sampleProp (lit "P") (lit "C")) 2 2
        (incomeTotalRowIdx sampleProp)
      = totalOfCur sampleProp.income (incomeCatsOf sampleProp))
    ∧ (evalCell (buildSheet sampleProp (lit "P") (lit "C")) 3 2 (netRowIdx sampleProp)
      = totalOfCur sampleProp.income (incomeCatsOf sampleProp)
        - totalOfCur sampleProp.expenses (expenseCatsOf sampleProp)) := by
  have h := workbook_totals_formulas sampleProp (lit "P") (lit "C")
    (by decide) (by decide) (by decide) (by decide) (by decide) (by decide)
    (by decide) (by decide)
  exact ⟨h.2.2.2.1.2.1, h.2.2.2.2.2⟩

end TaxPipeline
